import Mathlib

/-!
# Verlet physics primitives (`src/physics/verlet.hpp`)

A shallow embedding of `VerletObject`, `VerletConstraint` and `VerletSoftBody`, and of the
initialiser of `cell_size` in the constructor of `Simulation`
(`src/simulation/simulation.hpp`).

* A C++ `float` is read over an ordered field `F` (the reals in the theorems, the
  rationals when a definition is evaluated).  Rounding and overflow are not modelled.
  What is modelled is the one way the code leaves the numbers: a division by zero and
  the square root of a negative number give the non-numeric value `Flt.nan`, which
  every later operation propagates.
* `sqrt`, `sin` and `M_PI` are parameters of the definitions that use them (`Real.sqrt`,
  `Real.sin` and `Real.pi` in the theorems).
* Objects live in a store addressed by handles; a constraint or a body holds handles,
  so two references to one object alias as they do in the C++ code.
-/

namespace Verlet

/-! ## Floats -/

/-- A `float` over the field `F`: a number, or the non-numeric value produced by a
division by zero or the square root of a negative number.  IEEE arithmetic gives NaN
for `0 / 0` and an infinity for `x / 0` with `x ≠ 0`; the model keeps a single
non-numeric value for both. -/
inductive Flt (F : Type) where
  | num (r : F)
  | nan
  deriving DecidableEq

namespace Flt

variable {F : Type}

/-- Lift of a binary operation on numbers: a non-numeric operand gives a non-numeric
result. -/
def map₂ (f : F → F → F) : Flt F → Flt F → Flt F
  | num a, num b => num (f a b)
  | _, _ => nan

instance [Add F] : Add (Flt F) := ⟨map₂ (· + ·)⟩

instance [Sub F] : Sub (Flt F) := ⟨map₂ (· - ·)⟩

instance [Mul F] : Mul (Flt F) := ⟨map₂ (· * ·)⟩

/-- Unary minus. -/
def neg [Neg F] : Flt F → Flt F
  | num a => num (-a)
  | nan => nan

instance [Neg F] : Neg (Flt F) := ⟨neg⟩

/-- Division: dividing by zero leaves the numbers. -/
def div [LinearOrderedField F] : Flt F → Flt F → Flt F
  | num a, num b => if b = 0 then nan else num (a / b)
  | _, _ => nan

instance [LinearOrderedField F] : Div (Flt F) := ⟨div⟩

/-- The library call `sqrt`, with the square root `sq` of the field on non-negative
numbers. -/
def sqrt [LinearOrderedField F] (sq : F → F) : Flt F → Flt F
  | num a => if a < 0 then nan else num (sq a)
  | nan => nan

/-- The library call `std::abs`. -/
def abs [LinearOrderedField F] : Flt F → Flt F
  | num a => num |a|
  | nan => nan

end Flt

/-! ## `sf::Vector2f` -/

/-- The SFML vector `sf::Vector2f`: two floats. -/
structure Vector2f (F : Type) where
  x : Flt F
  y : Flt F
  deriving DecidableEq

namespace Vector2f

variable {F : Type}

/-- A vector with numeric components. -/
def vec (x y : F) : Vector2f F := ⟨Flt.num x, Flt.num y⟩

instance [Add F] : Add (Vector2f F) := ⟨fun a b => ⟨a.x + b.x, a.y + b.y⟩⟩

instance [Sub F] : Sub (Vector2f F) := ⟨fun a b => ⟨a.x - b.x, a.y - b.y⟩⟩

/-- SFML `operator*(Vector2<T> left, T right)`. -/
instance [Mul F] : HMul (Vector2f F) (Flt F) (Vector2f F) :=
  ⟨fun v s => ⟨v.x * s, v.y * s⟩⟩

/-- SFML `operator*(T left, Vector2<T> right)`. -/
instance [Mul F] : HMul (Flt F) (Vector2f F) (Vector2f F) :=
  ⟨fun s v => ⟨v.x * s, v.y * s⟩⟩

/-- SFML `operator/(Vector2<T> left, T right)`. -/
instance [LinearOrderedField F] : HDiv (Vector2f F) (Flt F) (Vector2f F) :=
  ⟨fun v s => ⟨v.x / s, v.y / s⟩⟩

end Vector2f

/-! ## `VerletObject` -/

/-- The SFML colour `sf::Color`: four 8-bit channels. -/
structure Colour where
  r : Nat
  g : Nat
  b : Nat
  a : Nat
  deriving DecidableEq

/-- The constant `DAMPING_FACTOR = 0.9999f`. -/
def DAMPING_FACTOR {F : Type} [LinearOrderedField F] : Flt F := Flt.num (9999 / 10000)

/-- The struct `VerletObject`. -/
structure VerletObject (F : Type) where
  curr_position : Vector2f F
  last_position : Vector2f F
  acceleration : Vector2f F
  colour : Colour
  radius : Flt F
  hidden : Bool
  fixed : Bool

namespace VerletObject

variable {F : Type} [LinearOrderedField F]

/-- The method `VerletObject::updatePosition`. -/
def updatePosition (o : VerletObject F) (dt : Flt F) : VerletObject F :=
  let displacement : Vector2f F := (o.curr_position - o.last_position) * (DAMPING_FACTOR : Flt F)
  { o with
    last_position := o.curr_position
    curr_position := o.curr_position + displacement + ((o.acceleration * dt : Vector2f F) * dt : Vector2f F)
    acceleration := Vector2f.vec 0 0 }

/-- The method `VerletObject::accelerate`. -/
def accelerate (o : VerletObject F) (a : Vector2f F) : VerletObject F :=
  { o with acceleration := o.acceleration + a }

/-- The method `VerletObject::addVelocity`. -/
def addVelocity (o : VerletObject F) (v : Vector2f F) (dt : Flt F) : VerletObject F :=
  { o with last_position := o.last_position - (v * dt : Vector2f F) }

/-- The method `VerletObject::setVelocity`. -/
def setVelocity (o : VerletObject F) (v : Vector2f F) (dt : Flt F) : VerletObject F :=
  { o with last_position := o.curr_position - (v * dt : Vector2f F) }

/-- The method `VerletObject::getVelocity`. -/
def getVelocity (o : VerletObject F) (dt : Flt F) : Vector2f F :=
  (o.curr_position - o.last_position) / dt

/-- The constructor `VerletObject(pos, radius, fixed)`; the colour keeps its default
`sf::Color::Red` and `hidden` its default `false`. -/
def new (pos : Vector2f F) (radius : Flt F) (fixed : Bool) : VerletObject F :=
  ⟨pos, pos, Vector2f.vec 0 0, ⟨255, 0, 0, 255⟩, radius, false, fixed⟩

/-- The default constructor `VerletObject()`, with `DEFAULT_RADIUS = 10.0f`. -/
def init : VerletObject F :=
  ⟨Vector2f.vec 0 0, Vector2f.vec 0 0, Vector2f.vec 0 0, ⟨255, 0, 0, 255⟩, Flt.num 10, false,
    false⟩

/-- The fields of an object other than `curr_position`. -/
def frame (o : VerletObject F) : Vector2f F × Vector2f F × Colour × Flt F × Bool × Bool :=
  (o.last_position, o.acceleration, o.colour, o.radius, o.hidden, o.fixed)

/-- Successive `updatePosition` calls, one per entry of `dts`, with nothing in between. -/
def updateMany (o : VerletObject F) (dts : List (Flt F)) : VerletObject F :=
  dts.foldl updatePosition o

end VerletObject

/-! ## Colour by speed -/

/-- A library function of one argument, such as `sin`, with the function `f` of the field
on numbers. -/
def Flt.map {F : Type} (f : F → F) : Flt F → Flt F
  | Flt.num a => Flt.num (f a)
  | Flt.nan => Flt.nan

/-- The comparison `<` of two floats: false when an operand is not a number. -/
def Flt.lt {F : Type} [LinearOrderedField F] : Flt F → Flt F → Bool
  | Flt.num a, Flt.num b => decide (a < b)
  | _, _ => false

/-- The conversion `static_cast<uint8_t>` of a float: the fractional part is dropped.  C++
defines it only when the result fits the 8 bits, which is the case for every number
`255 * s * s` with `-1 ≤ s ≤ 1`; beyond that range the model reduces modulo 256, and a
non-numeric value is taken to 0. -/
def Flt.toUInt8 {F : Type} [LinearOrderedField F] [FloorRing F] : Flt F → Nat
  | Flt.num a => Nat.floor a % 256
  | Flt.nan => 0

/-- The constant `COLOUR_COEFFICIENT = 0.0015f`. -/
def COLOUR_COEFFICIENT {F : Type} [LinearOrderedField F] : Flt F := Flt.num (15 / 10000)

/-- The method `VerletObject::updateColour`, with the library functions `sqrt` and `sin` and
the constant `M_PI` as the parameters `sq`, `sin` and `pi`.  The three-argument constructor
of `sf::Color` sets the alpha channel to 255. -/
def VerletObject.updateColour {F : Type} [LinearOrderedField F] [FloorRing F]
    (sq sin : F → F) (pi : F) (o : VerletObject F) (dt : Flt F) : VerletObject F :=
  let velocity := o.getVelocity dt
  let colour_theta : Flt F :=
    COLOUR_COEFFICIENT * Flt.sqrt sq (velocity.x * velocity.x + velocity.y * velocity.y)
  let r := Flt.map sin colour_theta
  let g := Flt.map sin (colour_theta + Flt.num (33 / 100) * Flt.num 2 * Flt.num pi)
  let b := Flt.map sin (colour_theta + Flt.num (66 / 100) * Flt.num 2 * Flt.num pi)
  { o with
    colour := ⟨Flt.toUInt8 (Flt.num 255 * r * r), Flt.toUInt8 (Flt.num 255 * g * g),
      Flt.toUInt8 (Flt.num 255 * b * b), 255⟩ }

/-! ## The object store -/

/-- The objects of a simulation, addressed by handle.  A C++ reference or pointer to a
`VerletObject` is a handle into this store. -/
abbrev Store (F : Type) := Nat → VerletObject F

/-- Write to the `curr_position` of the object at handle `a`: `f` maps the old value
to the new one (the compound assignments `+=` and `-=`). -/
def Store.setCurr {F : Type} (h : Store F) (a : Nat) (f : Vector2f F → Vector2f F) :
    Store F :=
  Function.update h a { h a with curr_position := f (h a).curr_position }

/-- The store holding the objects `os` at the handles `0, 1, ...`. -/
def Store.ofList {F : Type} [LinearOrderedField F] (os : List (VerletObject F)) : Store F :=
  fun a => os.getD a VerletObject.init

/-! ## `VerletConstraint` -/

/-- The struct `VerletConstraint`; `object_1` and `object_2` are handles. -/
structure VerletConstraint (F : Type) where
  object_1 : Nat
  object_2 : Nat
  target_distance : Flt F
  in_body : Bool

namespace VerletConstraint

variable {F : Type} [LinearOrderedField F]

/-- The local `distance` of `VerletConstraint::apply`: the distance between the two
objects as the code computes it. -/
def distance (sq : F → F) (c : VerletConstraint F) (h : Store F) : Flt F :=
  let displacement : Vector2f F := (h c.object_1).curr_position - (h c.object_2).curr_position
  Flt.sqrt sq (displacement.x * displacement.x + displacement.y * displacement.y)

/-- The method `VerletConstraint::apply`. -/
def apply (sq : F → F) (c : VerletConstraint F) (h : Store F) : Store F :=
  if (h c.object_1).fixed && (h c.object_2).fixed then h
  else
    let displacement : Vector2f F :=
      (h c.object_1).curr_position - (h c.object_2).curr_position
    let distance : Flt F :=
      Flt.sqrt sq (displacement.x * displacement.x + displacement.y * displacement.y)
    let normal : Vector2f F := displacement / distance
    let delta : Flt F := c.target_distance - distance
    if (h c.object_1).fixed && !(h c.object_2).fixed then
      h.setCurr c.object_2 (fun p => p - (delta * normal : Vector2f F))
    else if !(h c.object_1).fixed && (h c.object_2).fixed then
      h.setCurr c.object_1 (fun p => p + (delta * normal : Vector2f F))
    else
      let h1 := h.setCurr c.object_1 (fun p => p + ((Flt.num (1 / 2) * delta : Flt F) * normal : Vector2f F))
      h1.setCurr c.object_2 (fun p => p - ((Flt.num (1 / 2) * delta : Flt F) * normal : Vector2f F))

end VerletConstraint

/-! ## `VerletSoftBody` -/

/-- The struct `VerletSoftBody`; `vertices` are handles.  The code keeps the number of
vertices in an `int32_t`, so a body has fewer than `2 ^ 31` of them (`size_ok`); the
conversion of `vertices.size()` is then exact. -/
structure VerletSoftBody (F : Type) where
  vertices : List Nat
  segments : List (VerletConstraint F)
  points : Int
  desired_area : Flt F
  size_ok : vertices.length < 2 ^ 31

namespace VerletSoftBody

variable {F : Type} [LinearOrderedField F]

/-- The first loop of `VerletSoftBody::apply`: the local `area` after the loop, the
shoelace sum over the pairs `(i, (i + 1) % points)`. -/
def shoelace (vertices : List Nat) (h : Store F) : Flt F :=
  let points := vertices.length
  (List.range points).foldl
    (fun area i =>
      let vertex1 := (h (vertices.getD i 0)).curr_position
      let vertex2 := (h (vertices.getD ((i + 1) % points) 0)).curr_position
      area + (vertex1.x * vertex2.y - vertex2.x * vertex1.y))
    (Flt.num 0)

/-- The local `current_area` of `VerletSoftBody::apply`. -/
def current_area (vertices : List Nat) (h : Store F) : Flt F :=
  Flt.abs (shoelace vertices h) / Flt.num 2

/-- The local `delta` of `VerletSoftBody::apply`. -/
def delta (b : VerletSoftBody F) (h : Store F) : Flt F :=
  let points := b.vertices.length
  let area_error := b.desired_area - current_area b.vertices h
  area_error / (Flt.num (points : F) * Flt.num 2)

/-- The local `prev_idx` of the second loop of `VerletSoftBody::apply`. -/
def prev_idx (points i : Nat) : Nat := if i = 0 then points - 1 else i - 1

/-- The local `next_idx` of the second loop of `VerletSoftBody::apply`. -/
def next_idx (points i : Nat) : Nat := if i = points - 1 then 0 else i + 1

/-- The local `normal` of the second loop of `VerletSoftBody::apply` for vertex `i`,
after the division by its length. -/
def normal (sq : F → F) (vertices : List Nat) (h : Store F) (i : Nat) : Vector2f F :=
  let points := vertices.length
  let prev_idx := prev_idx points i
  let next_idx := next_idx points i
  let prev_point := (h (vertices.getD prev_idx 0)).curr_position
  let next_point := (h (vertices.getD next_idx 0)).curr_position
  let normal : Vector2f F := next_point - prev_point
  let normal : Vector2f F := ⟨-normal.y, normal.x⟩
  normal / Flt.sqrt sq (normal.x * normal.x + normal.y * normal.y)

/-- The normal the second loop of `VerletSoftBody::apply` computes from the positions
`prev_point` and `next_point` of the two neighbours of a vertex: their difference, turned by
a quarter turn and divided by its length. -/
def unitNormal (sq : F → F) (prev_point next_point : Vector2f F) : Vector2f F :=
  let normal : Vector2f F := next_point - prev_point
  let normal : Vector2f F := ⟨-normal.y, normal.x⟩
  normal / Flt.sqrt sq (normal.x * normal.x + normal.y * normal.y)

/-- One iteration of the second loop of `VerletSoftBody::apply`. -/
def correctVertex (sq : F → F) (vertices : List Nat) (delta : Flt F) (h : Store F)
    (i : Nat) : Store F :=
  h.setCurr (vertices.getD i 0)
    (fun p => p + (((Flt.num (1 / 100) : Flt F) * normal sq vertices h i : Vector2f F) * delta : Vector2f F))

/-- The method `VerletSoftBody::apply`. -/
def apply (sq : F → F) (b : VerletSoftBody F) (h : Store F) : Store F :=
  let points := b.vertices.length
  (List.range points).foldl (correctVertex sq b.vertices (delta b h)) h

/-- The store at the moment vertex `i` is processed: the second loop of
`VerletSoftBody::apply` after its first `i` iterations. -/
def stateBefore (sq : F → F) (b : VerletSoftBody F) (h : Store F) (i : Nat) : Store F :=
  (List.range i).foldl (correctVertex sq b.vertices (delta b h)) h

/-- The simultaneous update the loop of `VerletSoftBody::apply` is compared with: every
vertex is moved by `0.01 * normal * delta` with the normal computed from the positions at
the start of the call, not from the positions already corrected. -/
def applySimultaneous (sq : F → F) (b : VerletSoftBody F) (h : Store F) : Store F :=
  let points := b.vertices.length
  (List.range points).foldl
    (fun acc i => acc.setCurr (b.vertices.getD i 0)
      (fun p => p + (((Flt.num (1 / 100) : Flt F) * normal sq b.vertices h i : Vector2f F)
        * delta b h : Vector2f F)))
    h

/-- The shoelace sum of the points `(X i, Y i)`, `i < n`, taken in cyclic order: the
number the first loop of `VerletSoftBody::apply` adds up when all positions are numeric. -/
def shoelaceSum (n : Nat) (X Y : Nat → F) : F :=
  ∑ i in Finset.range n, (X i * Y ((i + 1) % n) - X ((i + 1) % n) * Y i)

end VerletSoftBody

/-! ## `Simulation` -/

namespace Simulation

variable {F : Type} [LinearOrderedField F]

/-- The initialiser of the member `cell_size` in the constructor `Simulation::Simulation`.
`window_width`, `thread_count` and `collision_resolver` are integers, `max_radius` is a
float: `window_width / 2` and `window_width / thread_count / 2` are integer divisions,
which truncate (`Int.tdiv`), and the other divisions are float divisions. -/
def cell_size (window_width thread_count : Int) (max_radius : Flt F)
    (collision_resolver : Int) : Flt F :=
  if collision_resolver = 2
      ∧ Flt.lt (Flt.num ((window_width.tdiv 2 : Int) : F) / max_radius
          / Flt.num (thread_count : F)) (Flt.num 2) = true then
    Flt.num (((window_width.tdiv thread_count).tdiv 2 : Int) : F)
  else max_radius * Flt.num 2

end Simulation

/-! ## Example configurations -/

section Examples

variable {F : Type} [LinearOrderedField F]

/-- Two objects of radius 10 at `(0, 0)` and `(3, 4)`, five apart. -/
def pairStore (fixed_1 fixed_2 : Bool) : Store F :=
  Store.ofList [VerletObject.new (Vector2f.vec 0 0) (Flt.num 10) fixed_1,
    VerletObject.new (Vector2f.vec 3 4) (Flt.num 10) fixed_2]

/-- Two objects of radius 10, both at `(1, 1)`. -/
def coincidentStore (fixed_1 fixed_2 : Bool) : Store F :=
  Store.ofList [VerletObject.new (Vector2f.vec 1 1) (Flt.num 10) fixed_1,
    VerletObject.new (Vector2f.vec 1 1) (Flt.num 10) fixed_2]

/-- A constraint between the objects at handles 0 and 1 with target distance 10. -/
def link : VerletConstraint F := ⟨0, 1, Flt.num 10, false⟩

/-- Four objects of radius 10 at `(r, 0)`, `(0, y)`, `(-r, 0)` and `(0, -y)`: with `y = r`
or `y = -r` the corners of a square of circumradius `r`, in one or the other winding. -/
def squareStore (r y : F) : Store F :=
  Store.ofList [VerletObject.new (Vector2f.vec r 0) (Flt.num 10) false,
    VerletObject.new (Vector2f.vec 0 y) (Flt.num 10) false,
    VerletObject.new (Vector2f.vec (-r) 0) (Flt.num 10) false,
    VerletObject.new (Vector2f.vec 0 (-y)) (Flt.num 10) false]

/-- A soft body on the objects at handles 0, 1, 2, 3, in this order. -/
def squareBody (desired_area : F) : VerletSoftBody F :=
  ⟨[0, 1, 2, 3], [], 4, Flt.num desired_area, by decide⟩

/-- Three objects of radius 10 on a line, at `(0, 0)`, `(1, 0)` and `(2, 0)`. -/
def collinearStore : Store F :=
  Store.ofList [VerletObject.new (Vector2f.vec 0 0) (Flt.num 10) false,
    VerletObject.new (Vector2f.vec 1 0) (Flt.num 10) false,
    VerletObject.new (Vector2f.vec 2 0) (Flt.num 10) false]

/-- A soft body on the objects at handles 0, 1, 2 with desired area 6. -/
def collinearBody : VerletSoftBody F := ⟨[0, 1, 2], [], 3, Flt.num 6, by decide⟩

/-- A soft body on the single object at handle 0 with desired area 6. -/
def pointBody : VerletSoftBody F := ⟨[0], [], 1, Flt.num 6, by decide⟩

/-- Three objects of radius 10 at `(0, 0)`, `(4, 0)` and `(0, 3)`: a triangle of area 6. -/
def triangleStore : Store F :=
  Store.ofList [VerletObject.new (Vector2f.vec 0 0) (Flt.num 10) false,
    VerletObject.new (Vector2f.vec 4 0) (Flt.num 10) false,
    VerletObject.new (Vector2f.vec 0 3) (Flt.num 10) false]

/-- A soft body on the objects at handles 0, 1, 2 with desired area 3006. -/
def triangleBody : VerletSoftBody F := ⟨[0, 1, 2], [], 3, Flt.num 3006, by decide⟩

end Examples

end Verlet

/-! ## Theorems -/

namespace Verlet

open Flt Vector2f

section FltLemmas
variable {F : Type} [LinearOrderedField F]

@[simp]
theorem Flt.num_add_num (a b : F) : (num a + num b : Flt F) = num (a + b) := rfl
@[simp]
theorem Flt.num_sub_num (a b : F) : (num a - num b : Flt F) = num (a - b) := rfl
@[simp]
theorem Flt.num_mul_num (a b : F) : (num a * num b : Flt F) = num (a * b) := rfl
@[simp]
theorem Flt.neg_num (a : F) : (-(num a) : Flt F) = num (-a) := rfl
@[simp]
theorem Flt.neg_nan : (-(nan) : Flt F) = nan := rfl
@[simp]
theorem Flt.nan_add (a : Flt F) : (nan + a : Flt F) = nan := rfl
@[simp]
theorem Flt.add_nan (a : Flt F) : (a + nan : Flt F) = nan := by cases a <;> rfl
@[simp]
theorem Flt.nan_sub (a : Flt F) : (nan - a : Flt F) = nan := rfl
@[simp]
theorem Flt.sub_nan (a : Flt F) : (a - nan : Flt F) = nan := by cases a <;> rfl
@[simp]
theorem Flt.nan_mul (a : Flt F) : (nan * a : Flt F) = nan := rfl
@[simp]
theorem Flt.mul_nan (a : Flt F) : (a * nan : Flt F) = nan := by cases a <;> rfl
@[simp]
theorem Flt.nan_div (a : Flt F) : (nan / a : Flt F) = nan := rfl
@[simp]
theorem Flt.div_nan (a : Flt F) : (a / nan : Flt F) = nan := by cases a <;> rfl
theorem Flt.num_div_num (a b : F) :
    (num a / num b : Flt F) = if b = 0 then nan else num (a / b) := rfl
@[simp]
theorem Flt.num_div_zero (a : F) : (num a / num 0 : Flt F) = nan := by
  simp [Flt.num_div_num]
theorem Flt.num_div_of_ne (a : F) {b : F} (hb : b ≠ 0) :
    (num a / num b : Flt F) = num (a / b) := by
  simp [Flt.num_div_num, hb]
theorem Flt.sqrt_num (sq : F → F) {a : F} (ha : 0 ≤ a) :
    Flt.sqrt sq (num a) = num (sq a) := by
  simp [Flt.sqrt, not_lt.mpr ha]
@[simp]
theorem Flt.sqrt_nan (sq : F → F) : Flt.sqrt sq (nan : Flt F) = nan := rfl
@[simp]
theorem Flt.abs_num (a : F) : Flt.abs (num a) = num |a| := rfl

@[simp]
theorem Vector2f.add_x (a b : Vector2f F) : (a + b).x = a.x + b.x := rfl
@[simp]
theorem Vector2f.add_y (a b : Vector2f F) : (a + b).y = a.y + b.y := rfl
@[simp]
theorem Vector2f.sub_x (a b : Vector2f F) : (a - b).x = a.x - b.x := rfl
@[simp]
theorem Vector2f.sub_y (a b : Vector2f F) : (a - b).y = a.y - b.y := rfl
@[simp]
theorem Vector2f.mul_x (a : Vector2f F) (s : Flt F) : (a * s : Vector2f F).x = a.x * s := rfl
@[simp]
theorem Vector2f.mul_y (a : Vector2f F) (s : Flt F) : (a * s : Vector2f F).y = a.y * s := rfl
@[simp]
theorem Vector2f.lmul_x (s : Flt F) (a : Vector2f F) : (s * a : Vector2f F).x = a.x * s := rfl
@[simp]
theorem Vector2f.lmul_y (s : Flt F) (a : Vector2f F) : (s * a : Vector2f F).y = a.y * s := rfl
@[simp]
theorem Vector2f.div_x (a : Vector2f F) (s : Flt F) : (a / s : Vector2f F).x = a.x / s := rfl
@[simp]
theorem Vector2f.div_y (a : Vector2f F) (s : Flt F) : (a / s : Vector2f F).y = a.y / s := rfl

end FltLemmas

@[simp]
theorem Vector2f.vec_x {F : Type} (a b : F) : (vec a b).x = num a := rfl

@[simp]
theorem Vector2f.vec_y {F : Type} (a b : F) : (vec a b).y = num b := rfl

theorem Vector2f.ext_iff2 {F : Type} (a b : Vector2f F) : a = b ↔ a.x = b.x ∧ a.y = b.y := by
  cases a; cases b; simp

theorem Vector2f.vec_inj {F : Type} (a b c d : F) : vec a b = vec c d ↔ a = c ∧ b = d := by
  simp [vec]

open VerletObject

/-- One `updatePosition` on an object with numeric positions and acceleration. -/
theorem VerletObject.updatePosition_vec (cx cy lx ly ax ay dt : ℝ) (colour : Colour)
    (radius : Flt ℝ) (hidden fixed : Bool) :
    updatePosition ⟨vec cx cy, vec lx ly, vec ax ay, colour, radius, hidden, fixed⟩ (num dt)
      = ⟨vec (cx + 9999 / 10000 * (cx - lx) + ax * dt ^ 2)
             (cy + 9999 / 10000 * (cy - ly) + ay * dt ^ 2),
         vec cx cy, vec 0 0, colour, radius, hidden, fixed⟩ := by
  simp only [updatePosition, DAMPING_FACTOR, VerletObject.mk.injEq, Vector2f.ext_iff2]
  simp
  constructor <;> ring

/-- Claim C1: for every object, fixed or not, and every `dt`, `updatePosition` gives
`curr_position + 0.9999 * (curr_position - last_position) + acceleration * dt ^ 2` as the
new `curr_position`, the old `curr_position` as the new `last_position` and a zero
`acceleration`; colour, radius, `hidden` and `fixed` are unchanged. -/
theorem VerletObject.updatePosition_spec (cx cy lx ly ax ay dt : ℝ) (colour : Colour)
    (radius : Flt ℝ) (hidden fixed : Bool) :
    updatePosition ⟨vec cx cy, vec lx ly, vec ax ay, colour, radius, hidden, fixed⟩ (num dt)
      = ⟨vec (cx + 9999 / 10000 * (cx - lx) + ax * dt ^ 2)
             (cy + 9999 / 10000 * (cy - ly) + ay * dt ^ 2),
         vec cx cy, vec 0 0, colour, radius, hidden, fixed⟩ :=
  VerletObject.updatePosition_vec cx cy lx ly ax ay dt colour radius hidden fixed

/-- Claim C8: for every object with a numeric `curr_position`, every velocity `v` and
every `dt ≠ 0`, `setVelocity v dt` followed by `getVelocity dt` returns `v`, and
`setVelocity` changes no field other than `last_position`. -/
theorem VerletObject.setVelocity_getVelocity (o : VerletObject ℝ) (cx cy vx vy dt : ℝ)
    (hc : o.curr_position = vec cx cy) (hdt : dt ≠ 0) :
    getVelocity (setVelocity o (vec vx vy) (num dt)) (num dt) = vec vx vy
    ∧ (setVelocity o (vec vx vy) (num dt)).curr_position = o.curr_position
    ∧ (setVelocity o (vec vx vy) (num dt)).acceleration = o.acceleration
    ∧ (setVelocity o (vec vx vy) (num dt)).colour = o.colour
    ∧ (setVelocity o (vec vx vy) (num dt)).radius = o.radius
    ∧ (setVelocity o (vec vx vy) (num dt)).hidden = o.hidden
    ∧ (setVelocity o (vec vx vy) (num dt)).fixed = o.fixed := by
  refine ⟨?_, rfl, rfl, rfl, rfl, rfl, rfl⟩
  simp only [getVelocity, setVelocity, hc, Vector2f.ext_iff2]
  simp [Flt.num_div_of_ne _ hdt]
  constructor <;> field_simp

/-- Claim C8 on the object at `(1, 2)` with velocity `(3, 4)` and `dt = 2`. -/
theorem VerletObject.setVelocity_getVelocity_witness :
    getVelocity (setVelocity (⟨vec 1 2, vec 0 0, vec 0 0, ⟨255, 0, 0, 255⟩, num 10, false, false⟩ :
        VerletObject ℝ) (vec 3 4) (num 2)) (num 2) = vec 3 4 :=
  (VerletObject.setVelocity_getVelocity _ 1 2 3 4 2 rfl (by norm_num)).1

/-- The object after successive `updatePosition` calls with no force applied. -/
theorem VerletObject.updateMany_numeric (dts : List ℝ) : ∀ (cx cy lx ly : ℝ) (colour : Colour) (radius : Flt ℝ)
    (hidden fixed : Bool),
    ∃ qx qy : ℝ,
      updateMany ⟨vec cx cy, vec lx ly, vec 0 0, colour, radius, hidden, fixed⟩ (dts.map num)
        = ⟨vec qx qy, vec (qx - (9999 / 10000) ^ dts.length * (cx - lx))
            (qy - (9999 / 10000) ^ dts.length * (cy - ly)), vec 0 0, colour, radius, hidden, fixed⟩ := by
  induction dts with
  | nil => intro cx cy lx ly colour radius hidden fixed; exact ⟨cx, cy, by simp [updateMany]⟩
  | cons dt dts ih =>
    intro cx cy lx ly colour radius hidden fixed
    obtain ⟨qx, qy, hq⟩ := ih (cx + 9999 / 10000 * (cx - lx) + 0 * dt ^ 2)
      (cy + 9999 / 10000 * (cy - ly) + 0 * dt ^ 2) cx cy colour radius hidden fixed
    refine ⟨qx, qy, ?_⟩
    simp only [updateMany, List.map_cons, List.foldl_cons, VerletObject.updatePosition_vec] at hq ⊢
    rw [hq]
    simp only [VerletObject.mk.injEq, Vector2f.vec_inj, List.length_cons, pow_succ, true_and, and_true]
    constructor <;> ring

/-- Claim C9: with zero acceleration one `updatePosition` scales the displacement
`curr_position - last_position` by `0.9999`, whatever `dt` is (in particular for every
`dt > 0`), and after `n` successive calls with any `dt` values and no force applied the
displacement is `0.9999 ^ n` times the initial one. -/
theorem VerletObject.updatePosition_damping (cx cy lx ly : ℝ) (colour : Colour) (radius : Flt ℝ)
    (hidden fixed : Bool) :
    (∀ dt : ℝ,
      (updatePosition ⟨vec cx cy, vec lx ly, vec 0 0, colour, radius, hidden, fixed⟩ (num dt)).curr_position
        - (updatePosition ⟨vec cx cy, vec lx ly, vec 0 0, colour, radius, hidden, fixed⟩ (num dt)).last_position
        = vec (9999 / 10000 * (cx - lx)) (9999 / 10000 * (cy - ly)))
    ∧ ∀ dts : List ℝ,
      (updateMany ⟨vec cx cy, vec lx ly, vec 0 0, colour, radius, hidden, fixed⟩ (dts.map num)).curr_position
        - (updateMany ⟨vec cx cy, vec lx ly, vec 0 0, colour, radius, hidden, fixed⟩ (dts.map num)).last_position
        = vec ((9999 / 10000) ^ dts.length * (cx - lx)) ((9999 / 10000) ^ dts.length * (cy - ly)) := by
  constructor
  · intro dt
    rw [VerletObject.updatePosition_vec]
    simp [Vector2f.ext_iff2]
  · intro dts
    obtain ⟨qx, qy, hq⟩ := VerletObject.updateMany_numeric dts cx cy lx ly colour radius hidden fixed
    rw [hq]
    simp [Vector2f.ext_iff2]



theorem Store.setCurr_same {F : Type} (h : Store F) (a : Nat) (f : Vector2f F → Vector2f F) :
    h.setCurr a f a = { h a with curr_position := f (h a).curr_position } := by
  simp [Store.setCurr]

theorem Store.setCurr_ne {F : Type} (h : Store F) {a b : Nat} (f : Vector2f F → Vector2f F)
    (hab : b ≠ a) : h.setCurr a f b = h b := by
  simp [Store.setCurr, Function.update_noteq hab]

theorem Store.setCurr_fixed {F : Type} (h : Store F) (a b : Nat) (f : Vector2f F → Vector2f F) :
    (h.setCurr a f b).fixed = (h b).fixed := by
  by_cases hab : b = a
  · subst hab; rw [Store.setCurr_same]
  · rw [Store.setCurr_ne _ _ hab]

/-- The separation of two different points is positive. -/
theorem sep_pos {p1x p1y p2x p2y : ℝ} (hne : ¬(p1x = p2x ∧ p1y = p2y)) :
    0 < Real.sqrt ((p1x - p2x) * (p1x - p2x) + (p1y - p2y) * (p1y - p2y)) := by
  apply Real.sqrt_pos.mpr
  by_contra hle
  apply hne
  have h1 := mul_self_nonneg (p1x - p2x)
  have h2 := mul_self_nonneg (p1y - p2y)
  have h3 : (p1x - p2x) * (p1x - p2x) = 0 := by linarith
  have h4 : (p1y - p2y) * (p1y - p2y) = 0 := by linarith
  exact ⟨sub_eq_zero.mp (mul_self_eq_zero.mp h3), sub_eq_zero.mp (mul_self_eq_zero.mp h4)⟩

open VerletConstraint

/-- What `apply` computes on two numeric positions that differ, `d` being their
separation. -/
theorem VerletConstraint.apply_eval (c : VerletConstraint ℝ) (h : Store ℝ)
    (p1x p1y p2x p2y t d : ℝ)
    (hp1 : (h c.object_1).curr_position = vec p1x p1y)
    (hp2 : (h c.object_2).curr_position = vec p2x p2y)
    (ht : c.target_distance = num t)
    (hne : ¬(p1x = p2x ∧ p1y = p2y))
    (hd : d = Real.sqrt ((p1x - p2x) * (p1x - p2x) + (p1y - p2y) * (p1y - p2y)))
    (hb : ((h c.object_1).fixed && (h c.object_2).fixed) = false) :
    apply Real.sqrt c h =
      if (h c.object_1).fixed && !(h c.object_2).fixed then
        h.setCurr c.object_2 (fun p => p - vec ((p1x - p2x) / d * (t - d)) ((p1y - p2y) / d * (t - d)))
      else if !(h c.object_1).fixed && (h c.object_2).fixed then
        h.setCurr c.object_1 (fun p => p + vec ((p1x - p2x) / d * (t - d)) ((p1y - p2y) / d * (t - d)))
      else
        (h.setCurr c.object_1 (fun p => p +
          vec ((p1x - p2x) / d * (1 / 2 * (t - d))) ((p1y - p2y) / d * (1 / 2 * (t - d))))).setCurr
          c.object_2 (fun p => p -
            vec ((p1x - p2x) / d * (1 / 2 * (t - d))) ((p1y - p2y) / d * (1 / 2 * (t - d)))) := by
  have hpos := sep_pos hne
  rw [← hd] at hpos
  have hnn : (0 : ℝ) ≤ (p1x - p2x) * (p1x - p2x) + (p1y - p2y) * (p1y - p2y) :=
    add_nonneg (mul_self_nonneg _) (mul_self_nonneg _)
  have hv : ∀ (s : ℝ), ((num s : Flt ℝ) * ((vec p1x p1y - vec p2x p2y : Vector2f ℝ) /
      (num d : Flt ℝ) : Vector2f ℝ) : Vector2f ℝ)
        = vec ((p1x - p2x) / d * s) ((p1y - p2y) / d * s) := by
    intro s
    simp [Vector2f.ext_iff2, Flt.num_div_of_ne _ hpos.ne']
  simp only [apply, hb, hp1, hp2, ht, Vector2f.sub_x, Vector2f.sub_y, Vector2f.vec_x,
    Vector2f.vec_y, Flt.num_sub_num, Flt.num_mul_num, Flt.num_add_num, Flt.sqrt_num _ hnn, ← hd, hv]
  simp

/-- Two objects at different positions are different objects. -/
theorem VerletConstraint.objects_ne (c : VerletConstraint ℝ) (h : Store ℝ)
    (hne : (h c.object_1).curr_position ≠ (h c.object_2).curr_position) :
    c.object_1 ≠ c.object_2 := by
  intro he
  apply hne
  rw [he]

/-- The positions of the two objects after `apply`, on two numeric positions that differ:
object 1 takes the share `a1` of the correction and object 2 the share `a2`, the shares
being `(0, 1)`, `(1, 0)` or `(1/2, 1/2)` as the `fixed` flags say. -/
theorem VerletConstraint.apply_positions (c : VerletConstraint ℝ) (h : Store ℝ)
    (p1x p1y p2x p2y t d : ℝ)
    (hp1 : (h c.object_1).curr_position = vec p1x p1y)
    (hp2 : (h c.object_2).curr_position = vec p2x p2y)
    (ht : c.target_distance = num t)
    (hne : ¬(p1x = p2x ∧ p1y = p2y))
    (hd : d = Real.sqrt ((p1x - p2x) * (p1x - p2x) + (p1y - p2y) * (p1y - p2y)))
    (hb : ((h c.object_1).fixed && (h c.object_2).fixed) = false) (a1 a2 : ℝ)
    (ha : (a1, a2) = if (h c.object_1).fixed then (0, 1)
      else if (h c.object_2).fixed then (1, 0) else (1 / 2, 1 / 2)) :
    (apply Real.sqrt c h c.object_1).curr_position
      = vec (p1x + a1 * (t - d) * ((p1x - p2x) / d)) (p1y + a1 * (t - d) * ((p1y - p2y) / d))
    ∧ (apply Real.sqrt c h c.object_2).curr_position
      = vec (p2x - a2 * (t - d) * ((p1x - p2x) / d)) (p2y - a2 * (t - d) * ((p1y - p2y) / d)) := by
  have hobj : c.object_1 ≠ c.object_2 := by
    apply VerletConstraint.objects_ne c h
    rw [hp1, hp2]
    simpa [Vector2f.vec_inj] using hne
  rw [VerletConstraint.apply_eval c h p1x p1y p2x p2y t d hp1 hp2 ht hne hd hb]
  cases hf1 : (h c.object_1).fixed <;> cases hf2 : (h c.object_2).fixed <;>
    simp only [hf1, hf2, Bool.and_self, Bool.and_true, Bool.and_false, Bool.not_true,
      Bool.not_false, if_true, if_false, Bool.false_eq_true, Prod.mk.injEq] at ha hb ⊢
  · obtain ⟨rfl, rfl⟩ := ha
    rw [Store.setCurr_ne _ _ hobj, Store.setCurr_same, Store.setCurr_same,
      Store.setCurr_ne _ _ hobj.symm]
    simp only [hp1, hp2, Vector2f.ext_iff2]
    simp
    refine ⟨?_, ?_⟩ <;> ring
  · obtain ⟨rfl, rfl⟩ := ha
    rw [Store.setCurr_same, Store.setCurr_ne _ _ hobj.symm]
    simp only [hp1, hp2, Vector2f.ext_iff2]
    simp
    refine ⟨?_, ?_⟩ <;> ring
  · obtain ⟨rfl, rfl⟩ := ha
    rw [Store.setCurr_same, Store.setCurr_ne _ _ hobj]
    simp only [hp1, hp2, Vector2f.ext_iff2]
    simp
    refine ⟨?_, ?_⟩ <;> ring
  · simp at hb


/-- On coincident objects that are not both fixed `apply` divides zero by zero: a free
endpoint ends at a non-numeric position, a fixed endpoint stays. -/
theorem VerletConstraint.apply_coincident (c : VerletConstraint ℝ) (h : Store ℝ) (px py : ℝ)
    (hp1 : (h c.object_1).curr_position = vec px py)
    (hp2 : (h c.object_2).curr_position = vec px py)
    (hb : ((h c.object_1).fixed && (h c.object_2).fixed) = false) :
    (apply Real.sqrt c h c.object_1).curr_position
        = (if (h c.object_1).fixed then vec px py else ⟨nan, nan⟩)
    ∧ (apply Real.sqrt c h c.object_2).curr_position
        = (if (h c.object_2).fixed then vec px py else ⟨nan, nan⟩) := by
  have hs : Flt.sqrt Real.sqrt (num ((px - px) * (px - px) + (py - py) * (py - py))) = num 0 := by
    rw [Flt.sqrt_num _ (add_nonneg (mul_self_nonneg _) (mul_self_nonneg _))]
    simp
  have hn : ∀ s : Flt ℝ, (s * ((vec px py - vec px py : Vector2f ℝ) / (num 0 : Flt ℝ) : Vector2f ℝ)
      : Vector2f ℝ) = ⟨nan, nan⟩ := by
    intro s
    simp [Vector2f.ext_iff2]
  have hm : ∀ p : Vector2f ℝ, p - (⟨nan, nan⟩ : Vector2f ℝ) = ⟨nan, nan⟩ := by
    intro p; simp [Vector2f.ext_iff2]
  have hpl : ∀ p : Vector2f ℝ, p + (⟨nan, nan⟩ : Vector2f ℝ) = ⟨nan, nan⟩ := by
    intro p; simp [Vector2f.ext_iff2]
  simp only [apply, hb, hp1, hp2, Vector2f.sub_x, Vector2f.sub_y, Vector2f.vec_x,
    Vector2f.vec_y, Flt.num_sub_num, Flt.num_mul_num, Flt.num_add_num, hs, hn, hm, hpl]
  cases hf1 : (h c.object_1).fixed <;> cases hf2 : (h c.object_2).fixed <;>
    simp only [hf1, hf2, Bool.and_self, Bool.and_true, Bool.and_false, Bool.not_true,
      Bool.not_false, if_true, if_false, Bool.false_eq_true] at hb ⊢
  · refine ⟨?_, by rw [Store.setCurr_same]⟩
    by_cases he : c.object_1 = c.object_2
    · rw [he, Store.setCurr_same]
    · rw [Store.setCurr_ne _ _ he, Store.setCurr_same]
  · have he : c.object_1 ≠ c.object_2 := by
      intro he; rw [he, hf2] at hf1; simp at hf1
    exact ⟨by rw [Store.setCurr_same], by rw [Store.setCurr_ne _ _ he.symm, hp2]⟩
  · have he : c.object_1 ≠ c.object_2 := by
      intro he; rw [he, hf2] at hf1; simp at hf1
    exact ⟨by rw [Store.setCurr_ne _ _ he, hp1], by rw [Store.setCurr_same]⟩
  · simp at hb

/-- Different numeric vectors differ in a component. -/
theorem Vector2f.vec_ne {p1x p1y p2x p2y : ℝ} (hne : vec p1x p1y ≠ vec p2x p2y) :
    ¬(p1x = p2x ∧ p1y = p2y) := by
  rintro ⟨rfl, rfl⟩
  exact hne rfl

/-- The objects of `pairStore` are five apart. -/
theorem sqrt_three_four : (5 : ℝ) = Real.sqrt (((0 : ℝ) - 3) * (0 - 3) + (0 - 4) * (0 - 4)) := by
  have h : (((0 : ℝ) - 3) * (0 - 3) + (0 - 4) * (0 - 4)) = 5 * 5 := by norm_num
  rw [h, Real.sqrt_mul_self (by norm_num)]

/-- Claim C2: Two free objects at different positions each take half of the correction, in
opposite directions along the line joining them: with `d` the separation, `delta = t - d`
and `normal = (p1 - p2) / d`, object 1 moves by `+0.5 * delta * normal` and object 2 by
`-0.5 * delta * normal`. -/
theorem VerletConstraint.apply_free_free (c : VerletConstraint ℝ) (h : Store ℝ)
    (p1x p1y p2x p2y t d : ℝ)
    (hf1 : (h c.object_1).fixed = false) (hf2 : (h c.object_2).fixed = false)
    (hp1 : (h c.object_1).curr_position = vec p1x p1y)
    (hp2 : (h c.object_2).curr_position = vec p2x p2y)
    (ht : c.target_distance = num t)
    (hne : vec p1x p1y ≠ vec p2x p2y)
    (hd : d = Real.sqrt ((p1x - p2x) * (p1x - p2x) + (p1y - p2y) * (p1y - p2y))) :
    (apply Real.sqrt c h c.object_1).curr_position
      = vec (p1x + 1 / 2 * (t - d) * ((p1x - p2x) / d)) (p1y + 1 / 2 * (t - d) * ((p1y - p2y) / d))
    ∧ (apply Real.sqrt c h c.object_2).curr_position
      = vec (p2x - 1 / 2 * (t - d) * ((p1x - p2x) / d))
          (p2y - 1 / 2 * (t - d) * ((p1y - p2y) / d)) :=
  VerletConstraint.apply_positions c h p1x p1y p2x p2y t d hp1 hp2 ht (Vector2f.vec_ne hne) hd
    (by simp [hf1]) (1 / 2) (1 / 2) (by simp [hf1, hf2])

/-- Claim C2 on two free objects at `(0, 0)` and `(3, 4)` with target distance 10. -/
theorem VerletConstraint.apply_free_free_witness :
    (apply Real.sqrt link (pairStore false false) 0).curr_position
      = vec (0 + 1 / 2 * (10 - 5) * ((0 - 3) / 5)) (0 + 1 / 2 * (10 - 5) * ((0 - 4) / 5))
    ∧ (apply Real.sqrt link (pairStore false false) 1).curr_position
      = vec (3 - 1 / 2 * (10 - 5) * ((0 - 3) / 5)) (4 - 1 / 2 * (10 - 5) * ((0 - 4) / 5)) :=
  VerletConstraint.apply_free_free link (pairStore false false) 0 0 3 4 10 5 rfl rfl rfl rfl rfl
    (by simp [Vector2f.vec_inj]) sqrt_three_four

/-- Claim C3: With exactly one fixed endpoint and different positions the fixed object
stays and the free one takes the whole correction: object 2 moves by `-delta * normal`
when object 1 is the fixed one, object 1 by `+delta * normal` when object 2 is. -/
theorem VerletConstraint.apply_one_fixed (c : VerletConstraint ℝ) (h : Store ℝ)
    (p1x p1y p2x p2y t d : ℝ)
    (hx : (h c.object_1).fixed ≠ (h c.object_2).fixed)
    (hp1 : (h c.object_1).curr_position = vec p1x p1y)
    (hp2 : (h c.object_2).curr_position = vec p2x p2y)
    (ht : c.target_distance = num t)
    (hne : vec p1x p1y ≠ vec p2x p2y)
    (hd : d = Real.sqrt ((p1x - p2x) * (p1x - p2x) + (p1y - p2y) * (p1y - p2y))) :
    ((h c.object_1).fixed = true →
      (apply Real.sqrt c h c.object_1).curr_position = vec p1x p1y
      ∧ (apply Real.sqrt c h c.object_2).curr_position
        = vec (p2x - (t - d) * ((p1x - p2x) / d)) (p2y - (t - d) * ((p1y - p2y) / d)))
    ∧ ((h c.object_2).fixed = true →
      (apply Real.sqrt c h c.object_2).curr_position = vec p2x p2y
      ∧ (apply Real.sqrt c h c.object_1).curr_position
        = vec (p1x + (t - d) * ((p1x - p2x) / d)) (p1y + (t - d) * ((p1y - p2y) / d))) := by
  constructor
  · intro hf1
    have hf2 : (h c.object_2).fixed = false := by
      cases hf : (h c.object_2).fixed
      · rfl
      · rw [hf1, hf] at hx; exact absurd rfl hx
    have := VerletConstraint.apply_positions c h p1x p1y p2x p2y t d hp1 hp2 ht
      (Vector2f.vec_ne hne) hd (by simp [hf2]) 0 1 (by simp [hf1])
    simpa using this
  · intro hf2
    have hf1 : (h c.object_1).fixed = false := by
      cases hf : (h c.object_1).fixed
      · rfl
      · rw [hf2, hf] at hx; exact absurd rfl hx
    have := VerletConstraint.apply_positions c h p1x p1y p2x p2y t d hp1 hp2 ht
      (Vector2f.vec_ne hne) hd (by simp [hf1]) 1 0 (by simp [hf1, hf2])
    simpa [and_comm] using this

/-- Claim C3 on a fixed object at `(0, 0)` and a free one at `(3, 4)` with target
distance 10. -/
theorem VerletConstraint.apply_one_fixed_witness :
    (apply Real.sqrt link (pairStore true false) 0).curr_position = vec 0 0
    ∧ (apply Real.sqrt link (pairStore true false) 1).curr_position
      = vec (3 - (10 - 5) * ((0 - 3) / 5)) (4 - (10 - 5) * ((0 - 4) / 5)) :=
  (VerletConstraint.apply_one_fixed link (pairStore true false) 0 0 3 4 10 5 (by decide) rfl rfl
    rfl (by simp [Vector2f.vec_inj]) sqrt_three_four).1 rfl

/-- Claim C4: With both objects fixed `apply` changes nothing: the store after the call
is the store before it, whatever the positions and the target distance. -/
theorem VerletConstraint.apply_both_fixed {F : Type} [LinearOrderedField F] (sq : F → F)
    (c : VerletConstraint F) (h : Store F)
    (hf1 : (h c.object_1).fixed = true) (hf2 : (h c.object_2).fixed = true) :
    apply sq c h = h := by
  simp [apply, hf1, hf2]

/-- Claim C4 on two fixed objects, both at `(1, 1)`. -/
theorem VerletConstraint.apply_both_fixed_witness :
    apply Real.sqrt link (coincidentStore true true) = coincidentStore true true :=
  VerletConstraint.apply_both_fixed Real.sqrt link (coincidentStore true true) rfl rfl

/-- Claim C5, as the code has it: on two objects at one position, not both fixed, `apply`
does not skip the correction.  It divides the zero displacement by the zero distance, and
each endpoint that is not fixed ends with a non-numeric `curr_position`; a fixed endpoint
keeps its position. -/
theorem VerletConstraint.apply_zero_separation (c : VerletConstraint ℝ) (h : Store ℝ)
    (px py : ℝ)
    (hp1 : (h c.object_1).curr_position = vec px py)
    (hp2 : (h c.object_2).curr_position = vec px py)
    (hb : ((h c.object_1).fixed && (h c.object_2).fixed) = false) :
    (apply Real.sqrt c h c.object_1).curr_position
        = (if (h c.object_1).fixed then vec px py else ⟨nan, nan⟩)
    ∧ (apply Real.sqrt c h c.object_2).curr_position
        = (if (h c.object_2).fixed then vec px py else ⟨nan, nan⟩) :=
  VerletConstraint.apply_coincident c h px py hp1 hp2 hb

/-- Claim C5, as the code has it, on a fixed and a free object, both at `(1, 1)`. -/
theorem VerletConstraint.apply_zero_separation_witness :
    (apply Real.sqrt link (coincidentStore true false) 0).curr_position = vec 1 1
    ∧ (apply Real.sqrt link (coincidentStore true false) 1).curr_position = ⟨nan, nan⟩ :=
  VerletConstraint.apply_zero_separation link (coincidentStore true false) 1 1 rfl rfl rfl

/-- Claim C5 fails as stated: two free objects both at `(1, 1)` are at zero separation and
not both fixed, yet `apply` does not leave their positions unchanged. -/
theorem VerletConstraint.apply_zero_separation_counterexample :
    ((coincidentStore false false : Store ℝ) 0).curr_position
        = ((coincidentStore false false : Store ℝ) 1).curr_position
    ∧ (((coincidentStore false false : Store ℝ) 0).fixed
        && ((coincidentStore false false : Store ℝ) 1).fixed) = false
    ∧ ¬((apply Real.sqrt link (coincidentStore false false) 0).curr_position
          = ((coincidentStore false false : Store ℝ) 0).curr_position
        ∧ (apply Real.sqrt link (coincidentStore false false) 1).curr_position
          = ((coincidentStore false false : Store ℝ) 1).curr_position) := by
  refine ⟨rfl, rfl, ?_⟩
  have h0 : (apply Real.sqrt link (coincidentStore false false) 0).curr_position
      = ⟨nan, nan⟩ :=
    (VerletConstraint.apply_coincident link (coincidentStore false false) 1 1 rfl rfl rfl).1
  intro hc
  have h1 := hc.1
  rw [h0] at h1
  simp [coincidentStore, Store.ofList, VerletObject.new, vec] at h1

/-- The method `apply` never writes a `fixed` flag. -/
theorem VerletConstraint.apply_fixed {F : Type} [LinearOrderedField F] (sq : F → F)
    (c : VerletConstraint F) (h : Store F) (a : Nat) :
    (apply sq c h a).fixed = (h a).fixed := by
  unfold apply
  split_ifs <;> simp only [Store.setCurr_fixed]

/-- One `apply` on two numeric positions that differ, the objects not both fixed and the
target distance positive, leaves two numeric positions exactly the target distance apart. -/
theorem VerletConstraint.apply_reaches (c : VerletConstraint ℝ) (h : Store ℝ)
    (p1x p1y p2x p2y t : ℝ)
    (hp1 : (h c.object_1).curr_position = vec p1x p1y)
    (hp2 : (h c.object_2).curr_position = vec p2x p2y)
    (ht : c.target_distance = num t)
    (hne : ¬(p1x = p2x ∧ p1y = p2y))
    (hb : ((h c.object_1).fixed && (h c.object_2).fixed) = false) (htpos : 0 < t) :
    ∃ q1x q1y q2x q2y : ℝ,
      (apply Real.sqrt c h c.object_1).curr_position = vec q1x q1y
      ∧ (apply Real.sqrt c h c.object_2).curr_position = vec q2x q2y
      ∧ Real.sqrt ((q1x - q2x) * (q1x - q2x) + (q1y - q2y) * (q1y - q2y)) = t := by
  obtain ⟨a1, a2, ha, hsum⟩ : ∃ a1 a2 : ℝ, ((a1, a2) = if (h c.object_1).fixed then (0, 1)
      else if (h c.object_2).fixed then (1, 0) else (1 / 2, 1 / 2)) ∧ a1 + a2 = 1 := by
    split_ifs
    · exact ⟨0, 1, rfl, by norm_num⟩
    · exact ⟨1, 0, rfl, by norm_num⟩
    · exact ⟨1 / 2, 1 / 2, rfl, by norm_num⟩
  have hpos := sep_pos hne
  have hnn : (0 : ℝ) ≤ (p1x - p2x) * (p1x - p2x) + (p1y - p2y) * (p1y - p2y) :=
    add_nonneg (mul_self_nonneg _) (mul_self_nonneg _)
  have hsq := Real.mul_self_sqrt hnn
  generalize hd : Real.sqrt ((p1x - p2x) * (p1x - p2x) + (p1y - p2y) * (p1y - p2y)) = d
    at hpos hsq
  obtain ⟨h1, h2⟩ := VerletConstraint.apply_positions c h p1x p1y p2x p2y t d hp1 hp2 ht hne
    hd.symm hb a1 a2 ha
  refine ⟨_, _, _, _, h1, h2, ?_⟩
  have ha2 : a2 = 1 - a1 := by linarith
  have key : (p1x + a1 * (t - d) * ((p1x - p2x) / d) - (p2x - a2 * (t - d) * ((p1x - p2x) / d)))
      * (p1x + a1 * (t - d) * ((p1x - p2x) / d) - (p2x - a2 * (t - d) * ((p1x - p2x) / d)))
      + (p1y + a1 * (t - d) * ((p1y - p2y) / d) - (p2y - a2 * (t - d) * ((p1y - p2y) / d)))
      * (p1y + a1 * (t - d) * ((p1y - p2y) / d) - (p2y - a2 * (t - d) * ((p1y - p2y) / d)))
      = t * t := by
    subst ha2
    have hd0 : d ≠ 0 := hpos.ne'
    field_simp
    have e : ∀ u : ℝ, u * d + a1 * (t - d) * u - (- ((1 - a1) * (t - d) * u)) = u * t := by
      intro u; ring
    nlinarith [hsq, e (p1x - p2x), e (p1y - p2y)]
  rw [key, Real.sqrt_mul_self htpos.le]

/-- The local `distance` on two numeric positions. -/
theorem VerletConstraint.distance_eval (c : VerletConstraint ℝ) (h : Store ℝ)
    (p1x p1y p2x p2y : ℝ)
    (hp1 : (h c.object_1).curr_position = vec p1x p1y)
    (hp2 : (h c.object_2).curr_position = vec p2x p2y) :
    distance Real.sqrt c h
      = num (Real.sqrt ((p1x - p2x) * (p1x - p2x) + (p1y - p2y) * (p1y - p2y))) := by
  simp only [distance, hp1, hp2, Vector2f.sub_x, Vector2f.sub_y, Vector2f.vec_x,
    Vector2f.vec_y, Flt.num_sub_num, Flt.num_mul_num, Flt.num_add_num]
  rw [Flt.sqrt_num _ (add_nonneg (mul_self_nonneg _) (mul_self_nonneg _))]

/-- A write that stores the value already there changes nothing. -/
theorem Store.setCurr_id {F : Type} (h : Store F) (a : Nat) (f : Vector2f F → Vector2f F)
    (hf : f (h a).curr_position = (h a).curr_position) : h.setCurr a f = h := by
  unfold Store.setCurr
  rw [hf]
  exact Function.update_eq_self a h

/-- A satisfied constraint is a fixed point of `apply`: on two numeric positions exactly
the target distance `t > 0` apart the call changes nothing. -/
theorem VerletConstraint.apply_satisfied (c : VerletConstraint ℝ) (h : Store ℝ)
    (p1x p1y p2x p2y t : ℝ)
    (hp1 : (h c.object_1).curr_position = vec p1x p1y)
    (hp2 : (h c.object_2).curr_position = vec p2x p2y)
    (ht : c.target_distance = num t) (htpos : 0 < t)
    (hsat : Real.sqrt ((p1x - p2x) * (p1x - p2x) + (p1y - p2y) * (p1y - p2y)) = t)
    (hb : ((h c.object_1).fixed && (h c.object_2).fixed) = false) :
    apply Real.sqrt c h = h := by
  have hne : ¬(p1x = p2x ∧ p1y = p2y) := by
    rintro ⟨rfl, rfl⟩
    simp at hsat
    exact htpos.ne hsat
  have e1 : (h c.object_1).curr_position + vec 0 0 = (h c.object_1).curr_position := by
    rw [hp1]; simp [Vector2f.ext_iff2]
  have e2 : (h c.object_2).curr_position - vec 0 0 = (h c.object_2).curr_position := by
    rw [hp2]; simp [Vector2f.ext_iff2]
  rw [VerletConstraint.apply_eval c h p1x p1y p2x p2y t t hp1 hp2 ht hne hsat.symm hb]
  simp only [sub_self, mul_zero]
  rw [Store.setCurr_id h c.object_1 _ e1, Store.setCurr_id h c.object_2 _ e2]
  simp

/-- Claim C10: with a positive target distance, the two objects not both fixed and at
different numeric positions, the distance `apply` computes equals the target distance
after the first `apply` and after every later one, and every later `apply` changes
nothing: the configuration reached by the first call is a fixed point. -/
theorem VerletConstraint.apply_converges (c : VerletConstraint ℝ) (h : Store ℝ)
    (p1x p1y p2x p2y t : ℝ)
    (hp1 : (h c.object_1).curr_position = vec p1x p1y)
    (hp2 : (h c.object_2).curr_position = vec p2x p2y)
    (ht : c.target_distance = num t) (htpos : 0 < t)
    (hne : vec p1x p1y ≠ vec p2x p2y)
    (hb : ((h c.object_1).fixed && (h c.object_2).fixed) = false) :
    ∀ k : Nat, 1 ≤ k →
      distance Real.sqrt c ((apply Real.sqrt c)^[k] h) = num t
      ∧ (apply Real.sqrt c)^[k] h = apply Real.sqrt c h := by
  intro k hk
  obtain ⟨j, rfl⟩ : ∃ j, k = j + 1 := ⟨k - 1, by omega⟩
  obtain ⟨q1x, q1y, q2x, q2y, h1, h2, hq⟩ :=
    VerletConstraint.apply_reaches c h p1x p1y p2x p2y t hp1 hp2 ht (Vector2f.vec_ne hne) hb htpos
  have hfix : apply Real.sqrt c (apply Real.sqrt c h) = apply Real.sqrt c h :=
    VerletConstraint.apply_satisfied c _ q1x q1y q2x q2y t h1 h2 ht htpos hq
      (by rw [VerletConstraint.apply_fixed, VerletConstraint.apply_fixed, hb])
  have hit : (apply Real.sqrt c)^[j + 1] h = apply Real.sqrt c h := by
    rw [Function.iterate_succ, Function.comp_apply]
    exact Function.iterate_fixed hfix j
  rw [hit]
  exact ⟨by rw [VerletConstraint.distance_eval c _ q1x q1y q2x q2y h1 h2, hq], rfl⟩

/-- Claim C10 after three calls on a free object at `(0, 0)` and a fixed one at `(3, 4)`
with target distance 10. -/
theorem VerletConstraint.apply_converges_witness :
    distance Real.sqrt link ((apply Real.sqrt link)^[3] (pairStore false true)) = num 10
    ∧ (apply Real.sqrt link)^[3] (pairStore false true)
        = apply Real.sqrt link (pairStore false true) :=
  VerletConstraint.apply_converges link (pairStore false true) 0 0 3 4 10 rfl rfl rfl
    (by norm_num) (by simp [Vector2f.vec_inj]) rfl 3 (by norm_num)

end Verlet

/-! ## Theorems on `VerletSoftBody` -/

namespace Verlet

open Flt Vector2f VerletSoftBody

/-- The index `(j + 1) % points` of the first loop is the `next_idx` of the second. -/
theorem VerletSoftBody.succ_mod {n j : Nat} (hj : j < n) : (j + 1) % n = next_idx n j := by
  unfold next_idx
  split_ifs with h
  · have : j + 1 = n := by omega
    rw [this, Nat.mod_self]
  · exact Nat.mod_eq_of_lt (by omega)

/-- The index `next_idx` is in range. -/
theorem VerletSoftBody.next_idx_lt {n j : Nat} (hj : j < n) : next_idx n j < n := by
  unfold next_idx; split_ifs <;> omega

/-- The index `prev_idx` is in range. -/
theorem VerletSoftBody.prev_idx_lt {n j : Nat} (hj : j < n) : prev_idx n j < n := by
  unfold prev_idx; split_ifs <;> omega

/-- With two or more vertices the next vertex is another vertex. -/
theorem VerletSoftBody.next_idx_ne {n j : Nat} (hn : 2 ≤ n) (_hj : j < n) : next_idx n j ≠ j := by
  unfold next_idx; split_ifs <;> omega

/-- With two or more vertices the previous vertex is another vertex. -/
theorem VerletSoftBody.prev_idx_ne {n j : Nat} (hn : 2 ≤ n) (_hj : j < n) : prev_idx n j ≠ j := by
  unfold prev_idx; split_ifs <;> omega

/-- The vertex before `i` is the one whose next vertex is `i`. -/
theorem VerletSoftBody.next_idx_eq_iff {n i j : Nat} (hi : i < n) (hj : j < n) :
    next_idx n j = i ↔ j = prev_idx n i := by
  unfold next_idx prev_idx; split_ifs <;> omega

/-- Moving the point `i` by `(wx, wy)` changes the shoelace sum by the cross product of
the vector from its next to its previous neighbour with `(wx, wy)`. -/
theorem VerletSoftBody.shoelaceSum_update (n : Nat) (hn : 2 ≤ n) (X Y : Nat → ℝ) (i : Nat)
    (hi : i < n) (wx wy : ℝ) :
    shoelaceSum n (Function.update X i (X i + wx)) (Function.update Y i (Y i + wy))
      = shoelaceSum n X Y + ((X (prev_idx n i) - X (next_idx n i)) * wy
          - wx * (Y (prev_idx n i) - Y (next_idx n i))) := by
  have hpi := VerletSoftBody.prev_idx_lt hi
  have hpne := VerletSoftBody.prev_idx_ne hn hi
  have key : ∀ j ∈ Finset.range n,
      (Function.update X i (X i + wx) j * Function.update Y i (Y i + wy) ((j + 1) % n)
        - Function.update X i (X i + wx) ((j + 1) % n) * Function.update Y i (Y i + wy) j)
      = (X j * Y ((j + 1) % n) - X ((j + 1) % n) * Y j)
        + ((if j = i then wx * Y (next_idx n i) - X (next_idx n i) * wy else 0)
          + (if j = prev_idx n i then X (prev_idx n i) * wy - wx * Y (prev_idx n i) else 0)) := by
    intro j hj
    have hj := Finset.mem_range.mp hj
    rw [VerletSoftBody.succ_mod hj]
    by_cases h1 : j = i
    · subst h1
      have h2 := VerletSoftBody.next_idx_ne hn hj
      simp only [Function.update_same, Function.update_noteq h2, if_true, if_neg (Ne.symm hpne)]
      ring
    · by_cases h2 : j = prev_idx n i
      · have h3 : next_idx n j = i := (VerletSoftBody.next_idx_eq_iff hi hj).mpr h2
        rw [h3]
        simp only [Function.update_same, Function.update_noteq h1, if_neg h1, if_pos h2, ← h2, if_true]
        ring
      · have h3 : next_idx n j ≠ i := fun e => h2 ((VerletSoftBody.next_idx_eq_iff hi hj).mp e)
        simp only [Function.update_noteq h1, Function.update_noteq h3, if_neg h1, if_neg h2]
        ring
  unfold shoelaceSum
  rw [Finset.sum_congr rfl key, Finset.sum_add_distrib, Finset.sum_add_distrib,
    Finset.sum_ite_eq', Finset.sum_ite_eq', if_pos (Finset.mem_range.mpr hi),
    if_pos (Finset.mem_range.mpr hpi)]
  ring

/-- The length of a vector is the modulus of the complex number with its coordinates. -/
theorem sqrt_eq_abs (x y : ℝ) : Real.sqrt (x * x + y * y) = Complex.abs ⟨x, y⟩ := by
  rw [Complex.abs_apply, Complex.normSq_mk]

/-- Two points that each moved by at most `e` changed their separation by at most `2 * e`. -/
theorem sep_perturb (xn yn xp yp xn0 yn0 xp0 yp0 e : ℝ)
    (hn : Real.sqrt ((xn - xn0) * (xn - xn0) + (yn - yn0) * (yn - yn0)) ≤ e)
    (hp : Real.sqrt ((xp - xp0) * (xp - xp0) + (yp - yp0) * (yp - yp0)) ≤ e) :
    |Real.sqrt ((xn - xp) * (xn - xp) + (yn - yp) * (yn - yp))
      - Real.sqrt ((xn0 - xp0) * (xn0 - xp0) + (yn0 - yp0) * (yn0 - yp0))| ≤ 2 * e := by
  rw [sqrt_eq_abs] at hn hp ⊢
  rw [sqrt_eq_abs]
  have h1 := Complex.abs.abs_abv_sub_le_abv_sub (⟨xn - xp, yn - yp⟩ : ℂ) ⟨xn0 - xp0, yn0 - yp0⟩
  have h2 : ((⟨xn - xp, yn - yp⟩ : ℂ) - ⟨xn0 - xp0, yn0 - yp0⟩)
      = (⟨xn - xn0, yn - yn0⟩ : ℂ) - ⟨xp - xp0, yp - yp0⟩ := by
    apply Complex.ext <;> simp <;> ring
  rw [h2] at h1
  have h3 := Complex.abs.sub_le (⟨xn - xn0, yn - yn0⟩ : ℂ) 0 ⟨xp - xp0, yp - yp0⟩
  simp only [sub_zero, zero_sub, map_neg_eq_map] at h3
  linarith

/-- The length of the correction step: a unit normal times `s`. -/
theorem step_length (dx dy D s : ℝ) (hD : D = Real.sqrt (dx * dx + dy * dy)) (hpos : 0 < D) :
    Real.sqrt ((-dy / D * s) * (-dy / D * s) + (dx / D * s) * (dx / D * s)) = |s| := by
  have hsq : D * D = dx * dx + dy * dy := by
    rw [hD]; exact Real.mul_self_sqrt (add_nonneg (mul_self_nonneg _) (mul_self_nonneg _))
  have : (-dy / D * s) * (-dy / D * s) + (dx / D * s) * (dx / D * s) = s * s := by
    field_simp
    nlinarith [hsq]
  rw [this, Real.sqrt_mul_self_eq_abs]

/-- On numeric positions the first loop of `apply` adds up the shoelace sum. -/
theorem VerletSoftBody.shoelace_eval (vs : List Nat) (h : Store ℝ) (X Y : Nat → ℝ)
    (hpos : ∀ i, i < vs.length → (h (vs.getD i 0)).curr_position = vec (X i) (Y i)) :
    shoelace vs h = num (shoelaceSum vs.length X Y) := by
  have key : ∀ m, m ≤ vs.length →
      (List.range m).foldl
        (fun area i =>
          area + ((h (vs.getD i 0)).curr_position.x
              * (h (vs.getD ((i + 1) % vs.length) 0)).curr_position.y
            - (h (vs.getD ((i + 1) % vs.length) 0)).curr_position.x
              * (h (vs.getD i 0)).curr_position.y))
        (num 0)
      = num (∑ i in Finset.range m,
          (X i * Y ((i + 1) % vs.length) - X ((i + 1) % vs.length) * Y i)) := by
    intro m
    induction m with
    | zero => intro _; simp
    | succ m ih =>
      intro hm
      have hlt : m < vs.length := by omega
      have hmod : (m + 1) % vs.length < vs.length := Nat.mod_lt _ (by omega)
      rw [List.range_succ, List.foldl_append, ih (by omega), Finset.sum_range_succ]
      simp only [List.foldl_cons, List.foldl_nil, hpos m hlt, hpos _ hmod, Vector2f.vec_x,
        Vector2f.vec_y, Flt.num_mul_num, Flt.num_sub_num, Flt.num_add_num]
  exact key vs.length le_rfl

/-- The local `current_area` when the shoelace sum is the number `S`. -/
theorem VerletSoftBody.current_area_eval (vs : List Nat) (h : Store ℝ) (S : ℝ)
    (hS : shoelace vs h = num S) : current_area vs h = num (|S| / 2) := by
  simp [current_area, hS, Flt.num_div_of_ne]

/-- The local `delta` when the desired area and the shoelace sum are numbers and the body
has a vertex. -/
theorem VerletSoftBody.delta_eval (b : VerletSoftBody ℝ) (h : Store ℝ) (A S : ℝ)
    (hA : b.desired_area = num A) (hS : shoelace b.vertices h = num S)
    (hn : 0 < b.vertices.length) :
    delta b h = num ((A - |S| / 2) / (b.vertices.length * 2)) := by
  have hne : ((b.vertices.length : ℝ) * 2) ≠ 0 := by positivity
  simp only [delta, hA, VerletSoftBody.current_area_eval _ _ _ hS, Flt.num_sub_num,
    Flt.num_mul_num, Flt.num_div_of_ne _ hne]

/-- The local `normal` of vertex `i` when its two neighbours are at different numeric
positions, `D` being their separation. -/
theorem VerletSoftBody.normal_eval (vs : List Nat) (h : Store ℝ) (i : Nat)
    (xp yp xn yn D : ℝ)
    (hp : (h (vs.getD (prev_idx vs.length i) 0)).curr_position = vec xp yp)
    (hx : (h (vs.getD (next_idx vs.length i) 0)).curr_position = vec xn yn)
    (hD : D = Real.sqrt ((xn - xp) * (xn - xp) + (yn - yp) * (yn - yp))) (hpos : 0 < D) :
    normal Real.sqrt vs h i = vec (-(yn - yp) / D) ((xn - xp) / D) := by
  have hnn : (0 : ℝ) ≤ -(yn - yp) * -(yn - yp) + (xn - xp) * (xn - xp) :=
    add_nonneg (mul_self_nonneg _) (mul_self_nonneg _)
  have hD2 : Real.sqrt (-(yn - yp) * -(yn - yp) + (xn - xp) * (xn - xp)) = D := by
    rw [hD]; congr 1; ring
  simp only [normal, hp, hx, Vector2f.sub_x, Vector2f.sub_y, Vector2f.vec_x, Vector2f.vec_y,
    Flt.num_sub_num, Flt.neg_num, Flt.num_mul_num, Flt.num_add_num, Flt.sqrt_num _ hnn, hD2,
    Vector2f.ext_iff2, Vector2f.div_x, Vector2f.div_y, Flt.num_div_of_ne _ hpos.ne']
  simp

/-- One iteration of the second loop writes the corrected position of vertex `i`. -/
theorem VerletSoftBody.correctVertex_self (vs : List Nat) (h : Store ℝ) (i : Nat)
    (x y nx ny d : ℝ)
    (hc : (h (vs.getD i 0)).curr_position = vec x y)
    (hn : normal Real.sqrt vs h i = vec nx ny) :
    (correctVertex Real.sqrt vs (num d) h i (vs.getD i 0)).curr_position
      = vec (x + nx * (1 / 100) * d) (y + ny * (1 / 100) * d) := by
  simp only [correctVertex, Store.setCurr_same, hc, hn, Vector2f.ext_iff2]
  simp

/-- One iteration of the second loop writes no object other than vertex `i`. -/
theorem VerletSoftBody.correctVertex_other {F : Type} [LinearOrderedField F] (sq : F → F)
    (vs : List Nat) (d : Flt F) (h : Store F) (i a : Nat) (ha : a ≠ vs.getD i 0) :
    correctVertex sq vs d h i a = h a := by
  simp only [correctVertex, Store.setCurr_ne _ _ ha]

/-- Different indices of a list without repetition hold different handles. -/
theorem getD_ne_of_nodup (vs : List Nat) (hnd : vs.Nodup) {i j : Nat} (hi : i < vs.length)
    (hj : j < vs.length) (hij : i ≠ j) : vs.getD i 0 ≠ vs.getD j 0 := by
  rw [List.getD_eq_getElem _ _ hi, List.getD_eq_getElem _ _ hj]
  intro he
  exact hij ((hnd.getElem_inj_iff).mp he)

/-- Iterations of the second loop that do not name the object `a` leave it as it was. -/
theorem VerletSoftBody.foldl_other {F : Type} [LinearOrderedField F] (sq : F → F)
    (vs : List Nat) (d : Flt F) (a : Nat) (l : List Nat) :
    ∀ h : Store F, (∀ i ∈ l, a ≠ vs.getD i 0) →
      (l.foldl (correctVertex sq vs d) h) a = h a := by
  induction l with
  | nil => intro h _; rfl
  | cons i l ih =>
    intro h hl
    rw [List.foldl_cons, ih _ (fun j hj => hl j (List.mem_cons_of_mem _ hj)),
      VerletSoftBody.correctVertex_other _ _ _ _ _ _ (hl i (List.mem_cons_self _ _))]

/-- The normal of a vertex whose two neighbours are one object is `0 / 0`. -/
theorem VerletSoftBody.normal_degenerate (vs : List Nat) (h : Store ℝ) (i : Nat)
    (he : prev_idx vs.length i = next_idx vs.length i) :
    normal Real.sqrt vs h i = ⟨nan, nan⟩ := by
  simp only [normal, he]
  generalize (h (vs.getD (next_idx vs.length i) 0)).curr_position = q
  obtain ⟨qx, qy⟩ := q
  cases qx <;> cases qy <;>
    simp [Vector2f.ext_iff2, Flt.sqrt]

/-- An iteration for a vertex whose two neighbours are one object writes a non-numeric
position. -/
theorem VerletSoftBody.correctVertex_degenerate (vs : List Nat) (d : Flt ℝ) (h : Store ℝ)
    (i : Nat) (he : prev_idx vs.length i = next_idx vs.length i) :
    (correctVertex Real.sqrt vs d h i (vs.getD i 0)).curr_position = ⟨nan, nan⟩ := by
  simp only [correctVertex, Store.setCurr_same, VerletSoftBody.normal_degenerate vs h i he,
    Vector2f.ext_iff2]
  simp

/-- Vertex 0 after `apply`, in a body of at least three different objects at numeric
positions, `D > 0` being the separation of the neighbours of vertex 0. -/
theorem VerletSoftBody.apply_first (b : VerletSoftBody ℝ) (h : Store ℝ) (X Y : Nat → ℝ)
    (A S D : ℝ) (hn : 3 ≤ b.vertices.length) (hnd : b.vertices.Nodup)
    (hpos : ∀ i, i < b.vertices.length →
      (h (b.vertices.getD i 0)).curr_position = vec (X i) (Y i))
    (hA : b.desired_area = num A) (hS : shoelace b.vertices h = num S)
    (hD : D = Real.sqrt ((X 1 - X (b.vertices.length - 1)) * (X 1 - X (b.vertices.length - 1))
      + (Y 1 - Y (b.vertices.length - 1)) * (Y 1 - Y (b.vertices.length - 1))))
    (hDpos : 0 < D) :
    (apply Real.sqrt b h (b.vertices.getD 0 0)).curr_position
      = vec (X 0 + -(Y 1 - Y (b.vertices.length - 1)) / D * (1 / 100)
            * ((A - |S| / 2) / (b.vertices.length * 2)))
          (Y 0 + (X 1 - X (b.vertices.length - 1)) / D * (1 / 100)
            * ((A - |S| / 2) / (b.vertices.length * 2))) := by
  have hdel := VerletSoftBody.delta_eval b h A S hA hS (by omega)
  obtain ⟨m, hm⟩ : ∃ m, b.vertices.length = m + 1 := ⟨b.vertices.length - 1, by omega⟩
  have hp : prev_idx b.vertices.length 0 = b.vertices.length - 1 := by simp [prev_idx]
  have hx : next_idx b.vertices.length 0 = 1 := by
    unfold next_idx; rw [if_neg (by omega)]
  have hnormal := VerletSoftBody.normal_eval b.vertices h 0
    (X (b.vertices.length - 1)) (Y (b.vertices.length - 1)) (X 1) (Y 1) D
    (by rw [hp]; exact hpos _ (by omega)) (by rw [hx]; exact hpos _ (by omega)) hD hDpos
  simp only [apply, hdel]
  rw [hm, List.range_succ_eq_map, List.foldl_cons, VerletSoftBody.foldl_other]
  · rw [← hm]
    exact VerletSoftBody.correctVertex_self b.vertices h 0 _ _ _ _ _ (hpos 0 (by omega)) hnormal
  · intro i hi
    obtain ⟨j, hj, rfl⟩ := List.mem_map.mp hi
    have hj := List.mem_range.mp hj
    exact getD_ne_of_nodup b.vertices hnd (by omega) (by omega) (by omega)

/-- A body of one or two vertices: every vertex ends at a non-numeric position. -/
theorem VerletSoftBody.apply_small (b : VerletSoftBody ℝ) (h : Store ℝ)
    (hn : b.vertices.length = 1 ∨ b.vertices.length = 2) :
    ∀ v ∈ b.vertices, (apply Real.sqrt b h v).curr_position = ⟨nan, nan⟩ := by
  intro v hv
  rcases hn with hn | hn
  · obtain ⟨v0, hvs⟩ := List.length_eq_one.mp hn
    rw [hvs] at hv
    have hv0 : v = b.vertices.getD 0 0 := by rw [hvs]; simpa using hv
    simp only [apply, hn, List.range_succ, List.range_zero, List.nil_append, List.foldl_cons,
      List.foldl_nil]
    rw [hv0]
    exact VerletSoftBody.correctVertex_degenerate _ _ _ _ (by rw [hn]; rfl)
  · obtain ⟨v0, v1, hvs⟩ := List.length_eq_two.mp hn
    simp only [apply, hn, List.range_succ, List.range_zero, List.nil_append, List.foldl_cons,
      List.foldl_nil, List.cons_append]
    by_cases h1 : v = b.vertices.getD 1 0
    · rw [h1]
      exact VerletSoftBody.correctVertex_degenerate _ _ _ _ (by rw [hn]; rfl)
    · have h0 : v = b.vertices.getD 0 0 := by
        rw [hvs] at hv h1 ⊢
        simp at hv h1 ⊢
        tauto
      rw [VerletSoftBody.correctVertex_other _ _ _ _ _ _ h1, h0]
      exact VerletSoftBody.correctVertex_degenerate _ _ _ _ (by rw [hn]; rfl)

/-- A body without vertices: `delta` is a division by zero. -/
theorem VerletSoftBody.delta_empty (b : VerletSoftBody ℝ) (h : Store ℝ)
    (hn : b.vertices.length = 0) : delta b h = nan := by
  simp only [delta, hn, Nat.cast_zero, Flt.num_mul_num, zero_mul]
  cases b.desired_area - current_area b.vertices h <;> simp

/-- Claim C6, as the code has it: `apply` has no degenerate-polygon guard.  On a body
without vertices it changes nothing, and its `delta` is a division by `2 * points = 0`.
On a body of one or two vertices the two neighbours of every vertex are one object, the
normal is `0 / 0`, and every vertex ends with a non-numeric `curr_position`.  On a body of
three or more different objects at numeric positions with shoelace sum zero the correction
pass runs with `delta = desired_area / (2 * points)`: vertex 0, when its neighbours
`points - 1` and `1` are `D > 0` apart, is moved by `0.01 * delta` times the unit normal of
the vector between them. -/
theorem VerletSoftBody.apply_degenerate (b : VerletSoftBody ℝ) (h : Store ℝ) :
    (b.vertices.length = 0 → apply Real.sqrt b h = h ∧ delta b h = nan)
    ∧ (b.vertices.length = 1 ∨ b.vertices.length = 2 →
        ∀ v ∈ b.vertices, (apply Real.sqrt b h v).curr_position = ⟨nan, nan⟩)
    ∧ (∀ (X Y : Nat → ℝ) (A D : ℝ), 3 ≤ b.vertices.length → b.vertices.Nodup →
        (∀ i, i < b.vertices.length →
          (h (b.vertices.getD i 0)).curr_position = vec (X i) (Y i)) →
        b.desired_area = num A → shoelace b.vertices h = num 0 →
        D = Real.sqrt ((X 1 - X (b.vertices.length - 1)) * (X 1 - X (b.vertices.length - 1))
          + (Y 1 - Y (b.vertices.length - 1)) * (Y 1 - Y (b.vertices.length - 1))) →
        0 < D →
        (apply Real.sqrt b h (b.vertices.getD 0 0)).curr_position
          = vec (X 0 + 1 / 100 * (A / (2 * b.vertices.length))
                * (-(Y 1 - Y (b.vertices.length - 1)) / D))
              (Y 0 + 1 / 100 * (A / (2 * b.vertices.length))
                * ((X 1 - X (b.vertices.length - 1)) / D))) := by
  refine ⟨?_, VerletSoftBody.apply_small b h, ?_⟩
  · intro hn
    exact ⟨by simp [apply, hn], VerletSoftBody.delta_empty b h hn⟩
  · intro X Y A D hn hnd hpos hA hS hD hDpos
    rw [VerletSoftBody.apply_first b h X Y A 0 D hn hnd hpos hA hS hD hDpos, Vector2f.vec_inj]
    constructor <;> simp <;> ring

/-- The positions of the three objects of `collinearStore`. -/
theorem collinearStore_pos : ∀ i, i < (collinearBody : VerletSoftBody ℝ).vertices.length →
    ((collinearStore : Store ℝ) ((collinearBody : VerletSoftBody ℝ).vertices.getD i 0)).curr_position
      = vec (([0, 1, 2] : List ℝ).getD i 0) (([0, 0, 0] : List ℝ).getD i 0) := by
  intro i hi
  simp only [collinearBody, List.length_cons, List.length_nil] at hi
  interval_cases i <;> rfl

/-- The shoelace sum of the three objects of `collinearStore` is zero. -/
theorem collinearStore_shoelace :
    shoelace (collinearBody : VerletSoftBody ℝ).vertices (collinearStore : Store ℝ) = num 0 := by
  rw [VerletSoftBody.shoelace_eval _ _ _ _ collinearStore_pos]
  simp [shoelaceSum, Finset.sum_range_succ, collinearBody]

/-- Claim C6, as the code has it, on a body of one vertex and on three objects on a
line. -/
theorem VerletSoftBody.apply_degenerate_witness :
    (∀ v ∈ (pointBody : VerletSoftBody ℝ).vertices,
      (apply Real.sqrt pointBody collinearStore v).curr_position = ⟨nan, nan⟩)
    ∧ (apply Real.sqrt collinearBody (collinearStore : Store ℝ) 0).curr_position
        = vec (0 + 1 / 100 * (6 / (2 * ((3 : Nat) : ℝ))) * (-(0 - 0) / 1))
            (0 + 1 / 100 * (6 / (2 * ((3 : Nat) : ℝ))) * ((1 - 2) / 1)) :=
  ⟨(VerletSoftBody.apply_degenerate pointBody collinearStore).2.1 (Or.inl rfl),
    (VerletSoftBody.apply_degenerate collinearBody collinearStore).2.2
      (fun i => ([0, 1, 2] : List ℝ).getD i 0) (fun i => ([0, 0, 0] : List ℝ).getD i 0) 6 1
      (by decide) (by decide) collinearStore_pos rfl collinearStore_shoelace
      (by simp [collinearBody]; norm_num) (by norm_num)⟩

/-- Claim C6 fails as stated.  Three objects on a line form a body of three vertices with
zero shoelace area, yet `apply` moves vertex 0 from `(0, 0)` to `(0, -0.01)`.  A body of one
vertex has fewer than three vertices, yet `apply` changes the position of its vertex, to a
non-numeric value. -/
theorem VerletSoftBody.apply_degenerate_counterexample :
    (3 ≤ (collinearBody : VerletSoftBody ℝ).vertices.length
      ∧ current_area (collinearBody : VerletSoftBody ℝ).vertices (collinearStore : Store ℝ)
          = num 0
      ∧ (apply Real.sqrt collinearBody (collinearStore : Store ℝ) 0).curr_position
          = vec 0 (-(1 / 100))
      ∧ (apply Real.sqrt collinearBody (collinearStore : Store ℝ) 0).curr_position
          ≠ ((collinearStore : Store ℝ) 0).curr_position)
    ∧ ((pointBody : VerletSoftBody ℝ).vertices.length < 3
      ∧ (apply Real.sqrt pointBody (collinearStore : Store ℝ) 0).curr_position = ⟨nan, nan⟩
      ∧ (apply Real.sqrt pointBody (collinearStore : Store ℝ) 0).curr_position
          ≠ ((collinearStore : Store ℝ) 0).curr_position) := by
  have h0 : ((collinearStore : Store ℝ) 0).curr_position = vec 0 0 := rfl
  have h1 : (apply Real.sqrt collinearBody (collinearStore : Store ℝ) 0).curr_position
      = vec 0 (-(1 / 100)) := by
    have := VerletSoftBody.apply_first collinearBody collinearStore
      (fun i => ([0, 1, 2] : List ℝ).getD i 0) (fun i => ([0, 0, 0] : List ℝ).getD i 0) 6 0 1
      (by decide) (by decide) collinearStore_pos rfl collinearStore_shoelace
      (by simp [collinearBody]; norm_num) (by norm_num)
    rw [show (collinearBody : VerletSoftBody ℝ).vertices.getD 0 0 = 0 from rfl] at this
    rw [this, Vector2f.vec_inj]
    simp [collinearBody]
    norm_num
  have h2 : (apply Real.sqrt pointBody (collinearStore : Store ℝ) 0).curr_position
      = ⟨nan, nan⟩ :=
    VerletSoftBody.apply_small pointBody collinearStore (Or.inl rfl) 0 (by simp [pointBody])
  refine ⟨⟨by decide, ?_, h1, ?_⟩, by decide, h2, ?_⟩
  · rw [VerletSoftBody.current_area_eval _ _ _ collinearStore_shoelace]
    simp
  · rw [h1, h0]
    simp [Vector2f.vec_inj]
  · rw [h2, h0]
    simp [vec]

/-- The cross product of the vector between the neighbours with the correction step. -/
theorem cross_step (xp yp xn yn D s : ℝ)
    (hDD : D * D = (xn - xp) * (xn - xp) + (yn - yp) * (yn - yp)) (hD0 : D ≠ 0) :
    (xp - xn) * ((xn - xp) / D * s) - -(yn - yp) / D * s * (yp - yn) = -(s * D) := by
  have hinv : D * D⁻¹ = 1 := mul_inv_cancel₀ hD0
  simp only [div_eq_mul_inv]
  linear_combination (s * D⁻¹) * hDD - (s * D) * hinv

/-- The state of the second loop of `apply` after `k` iterations, on a body of at least
two different objects at numeric positions `(X, Y)`, when the separation of the two
neighbours of every vertex is more than `2 * |s|` and between `lo + 2 * |s|` and
`hi - 2 * |s|` at the start of the call, `s = 0.01 * delta` being the length of a correction step: the positions are numeric,
no vertex is further than `|s|` from where it started, and the shoelace sum has gone down
by `s * L`, with `L` the sum of the `k` separations met, each between `lo` and `hi`. -/
theorem VerletSoftBody.loop_invariant (vs : List Nat) (h : Store ℝ) (X Y : Nat → ℝ)
    (d lo hi : ℝ) (hn : 2 ≤ vs.length) (hnd : vs.Nodup)
    (hpos : ∀ i, i < vs.length → (h (vs.getD i 0)).curr_position = vec (X i) (Y i))
    (hsep : ∀ i, i < vs.length →
      2 * |1 / 100 * d| < Real.sqrt
        ((X (next_idx vs.length i) - X (prev_idx vs.length i))
          * (X (next_idx vs.length i) - X (prev_idx vs.length i))
        + (Y (next_idx vs.length i) - Y (prev_idx vs.length i))
          * (Y (next_idx vs.length i) - Y (prev_idx vs.length i)))
      ∧ lo + 2 * |1 / 100 * d| ≤ Real.sqrt
        ((X (next_idx vs.length i) - X (prev_idx vs.length i))
          * (X (next_idx vs.length i) - X (prev_idx vs.length i))
        + (Y (next_idx vs.length i) - Y (prev_idx vs.length i))
          * (Y (next_idx vs.length i) - Y (prev_idx vs.length i)))
      ∧ Real.sqrt
        ((X (next_idx vs.length i) - X (prev_idx vs.length i))
          * (X (next_idx vs.length i) - X (prev_idx vs.length i))
        + (Y (next_idx vs.length i) - Y (prev_idx vs.length i))
          * (Y (next_idx vs.length i) - Y (prev_idx vs.length i))) + 2 * |1 / 100 * d| ≤ hi) :
    ∀ k, k ≤ vs.length → ∃ (Xk Yk : Nat → ℝ) (L : ℝ),
      (∀ j, j < vs.length →
        (((List.range k).foldl (correctVertex Real.sqrt vs (num d)) h)
          (vs.getD j 0)).curr_position = vec (Xk j) (Yk j))
      ∧ (∀ j, k ≤ j → Xk j = X j ∧ Yk j = Y j)
      ∧ (∀ j, Real.sqrt ((Xk j - X j) * (Xk j - X j) + (Yk j - Y j) * (Yk j - Y j))
          ≤ |1 / 100 * d|)
      ∧ shoelaceSum vs.length Xk Yk = shoelaceSum vs.length X Y - 1 / 100 * d * L
      ∧ k * lo ≤ L ∧ L ≤ k * hi := by
  intro k
  induction k with
  | zero =>
    intro _
    refine ⟨X, Y, 0, ?_, ?_, ?_, ?_, ?_, ?_⟩
    · intro j hj; simpa using hpos j hj
    · intro j _; exact ⟨rfl, rfl⟩
    · intro j; simp
    · simp
    · simp
    · simp
  | succ k ih =>
    intro hk
    have hkn : k < vs.length := by omega
    obtain ⟨Xk, Yk, L, h1, h2, h3, h4, h5, h6⟩ := ih (by omega)
    have hpv := VerletSoftBody.prev_idx_lt hkn
    have hnx := VerletSoftBody.next_idx_lt hkn
    have hpert := sep_perturb (Xk (next_idx vs.length k)) (Yk (next_idx vs.length k))
      (Xk (prev_idx vs.length k)) (Yk (prev_idx vs.length k))
      (X (next_idx vs.length k)) (Y (next_idx vs.length k))
      (X (prev_idx vs.length k)) (Y (prev_idx vs.length k)) |1 / 100 * d| (h3 _) (h3 _)
    obtain ⟨hs0, hs1, hs2⟩ := hsep k hkn
    generalize hD : Real.sqrt
        ((Xk (next_idx vs.length k) - Xk (prev_idx vs.length k))
          * (Xk (next_idx vs.length k) - Xk (prev_idx vs.length k))
        + (Yk (next_idx vs.length k) - Yk (prev_idx vs.length k))
          * (Yk (next_idx vs.length k) - Yk (prev_idx vs.length k))) = D at hpert
    rw [abs_le] at hpert
    have hDlo : lo ≤ D := by linarith [hpert.1]
    have hDhi : D ≤ hi := by linarith [hpert.2]
    have hDpos : 0 < D := by linarith [hpert.1]
    have hDD : D * D = (Xk (next_idx vs.length k) - Xk (prev_idx vs.length k))
          * (Xk (next_idx vs.length k) - Xk (prev_idx vs.length k))
        + (Yk (next_idx vs.length k) - Yk (prev_idx vs.length k))
          * (Yk (next_idx vs.length k) - Yk (prev_idx vs.length k)) := by
      rw [← hD]
      exact Real.mul_self_sqrt (add_nonneg (mul_self_nonneg _) (mul_self_nonneg _))
    have hnormal := VerletSoftBody.normal_eval vs
      ((List.range k).foldl (correctVertex Real.sqrt vs (num d)) h) k
      (Xk (prev_idx vs.length k)) (Yk (prev_idx vs.length k))
      (Xk (next_idx vs.length k)) (Yk (next_idx vs.length k)) D (h1 _ hpv) (h1 _ hnx)
      hD.symm hDpos
    refine ⟨Function.update Xk k (Xk k
        + -(Yk (next_idx vs.length k) - Yk (prev_idx vs.length k)) / D * (1 / 100 * d)),
      Function.update Yk k (Yk k
        + (Xk (next_idx vs.length k) - Xk (prev_idx vs.length k)) / D * (1 / 100 * d)),
      L + D, ?_, ?_, ?_, ?_, ?_, ?_⟩
    · intro j hj
      rw [List.range_succ, List.foldl_append]
      simp only [List.foldl_cons, List.foldl_nil]
      by_cases hjk : j = k
      · subst hjk
        rw [VerletSoftBody.correctVertex_self vs _ j _ _ _ _ d (h1 j hj) hnormal]
        simp only [Function.update_same, Vector2f.vec_inj]
        constructor <;> ring
      · rw [VerletSoftBody.correctVertex_other _ _ _ _ _ _
          (getD_ne_of_nodup vs hnd hj hkn hjk), h1 j hj]
        simp only [Function.update_noteq hjk]
    · intro j hj
      have hjk : j ≠ k := by omega
      simp only [Function.update_noteq hjk]
      exact h2 j (by omega)
    · intro j
      by_cases hjk : j = k
      · subst hjk
        obtain ⟨e1, e2⟩ := h2 j le_rfl
        simp only [Function.update_same, e1, e2, add_sub_cancel_left]
        rw [step_length _ _ D _ hD.symm hDpos]
      · simp only [Function.update_noteq hjk]
        exact h3 j
    · rw [VerletSoftBody.shoelaceSum_update vs.length hn Xk Yk k hkn, h4]
      rw [cross_step _ _ _ _ D _ hDD hDpos.ne']
      ring
    · push_cast; linarith
    · push_cast; linarith

/-- The shoelace sum after `apply`, on a body of at least two different objects at numeric
positions `(X, Y)` whose neighbour separations are more than two correction steps and
between `lo` and `hi` with a margin of two steps: it has gone down by `0.01 * delta * L`
for some `L` between `points * lo` and `points * hi`. -/
theorem VerletSoftBody.apply_shoelace (b : VerletSoftBody ℝ) (h : Store ℝ) (X Y : Nat → ℝ)
    (A d lo hi : ℝ) (hn : 2 ≤ b.vertices.length) (hnd : b.vertices.Nodup)
    (hpos : ∀ i, i < b.vertices.length →
      (h (b.vertices.getD i 0)).curr_position = vec (X i) (Y i))
    (hA : b.desired_area = num A)
    (hd : d = (A - |shoelaceSum b.vertices.length X Y| / 2) / (b.vertices.length * 2))
    (hsep : ∀ i, i < b.vertices.length →
      2 * |1 / 100 * d| < Real.sqrt
        ((X (next_idx b.vertices.length i) - X (prev_idx b.vertices.length i))
          * (X (next_idx b.vertices.length i) - X (prev_idx b.vertices.length i))
        + (Y (next_idx b.vertices.length i) - Y (prev_idx b.vertices.length i))
          * (Y (next_idx b.vertices.length i) - Y (prev_idx b.vertices.length i)))
      ∧ lo + 2 * |1 / 100 * d| ≤ Real.sqrt
        ((X (next_idx b.vertices.length i) - X (prev_idx b.vertices.length i))
          * (X (next_idx b.vertices.length i) - X (prev_idx b.vertices.length i))
        + (Y (next_idx b.vertices.length i) - Y (prev_idx b.vertices.length i))
          * (Y (next_idx b.vertices.length i) - Y (prev_idx b.vertices.length i)))
      ∧ Real.sqrt
        ((X (next_idx b.vertices.length i) - X (prev_idx b.vertices.length i))
          * (X (next_idx b.vertices.length i) - X (prev_idx b.vertices.length i))
        + (Y (next_idx b.vertices.length i) - Y (prev_idx b.vertices.length i))
          * (Y (next_idx b.vertices.length i) - Y (prev_idx b.vertices.length i)))
          + 2 * |1 / 100 * d| ≤ hi) :
    ∃ L : ℝ,
      shoelace b.vertices (apply Real.sqrt b h)
        = num (shoelaceSum b.vertices.length X Y - 1 / 100 * d * L)
      ∧ b.vertices.length * lo ≤ L ∧ L ≤ b.vertices.length * hi := by
  have hS := VerletSoftBody.shoelace_eval b.vertices h X Y hpos
  have hdel := VerletSoftBody.delta_eval b h A _ hA hS (by omega)
  rw [← hd] at hdel
  obtain ⟨Xn, Yn, L, h1, -, -, h4, h5, h6⟩ :=
    VerletSoftBody.loop_invariant b.vertices h X Y d lo hi hn hnd hpos hsep
      b.vertices.length le_rfl
  refine ⟨L, ?_, h5, h6⟩
  have happ : apply Real.sqrt b h
      = (List.range b.vertices.length).foldl (correctVertex Real.sqrt b.vertices (num d)) h := by
    simp only [apply, hdel]
  rw [happ, VerletSoftBody.shoelace_eval b.vertices _ Xn Yn h1, h4]

/-- The area error after a correction that moves the area `a` by `u` towards the desired
area `A` and not further than twice the error. -/
theorem area_error_le (A a u : ℝ) (ha : 0 ≤ a) (hA : 0 ≤ A)
    (hu1 : 0 ≤ A - a → 0 ≤ u ∧ u ≤ 2 * (A - a))
    (hu2 : A - a ≤ 0 → 2 * (A - a) ≤ u ∧ u ≤ 0) :
    |A - (|a + u|)| ≤ |A - a| := by
  rcases le_total 0 (A - a) with he | he
  · obtain ⟨h1, h2⟩ := hu1 he
    rw [abs_of_nonneg (by linarith : 0 ≤ a + u), abs_of_nonneg he, abs_le]
    constructor <;> linarith
  · obtain ⟨h1, h2⟩ := hu2 he
    rw [abs_of_nonpos he, abs_le]
    rcases le_total 0 (a + u) with hs | hs
    · rw [abs_of_nonneg hs]
      constructor <;> linarith
    · rw [abs_of_nonpos hs]
      constructor <;> linarith

/-- The positions of the corners of `squareStore`. -/
theorem squareStore_pos (r y : ℝ) : ∀ i, i < ([0, 1, 2, 3] : List Nat).length →
    ((squareStore r y : Store ℝ) (([0, 1, 2, 3] : List Nat).getD i 0)).curr_position
      = vec (([r, 0, -r, 0] : List ℝ).getD i 0) (([0, y, 0, -y] : List ℝ).getD i 0) := by
  intro i hi
  simp only [List.length_cons, List.length_nil] at hi
  interval_cases i <;> rfl

/-- The shoelace sum of the corners of `squareStore`. -/
theorem squareStore_sum (r y : ℝ) :
    shoelaceSum ([0, 1, 2, 3] : List Nat).length (fun i => ([r, 0, -r, 0] : List ℝ).getD i 0)
      (fun i => ([0, y, 0, -y] : List ℝ).getD i 0) = 4 * r * y := by
  simp [shoelaceSum, Finset.sum_range_succ]
  ring

/-- The two neighbours of every corner of a square of circumradius `r` are `2 * r` apart. -/
theorem squareStore_sep (r y : ℝ) (hr : 0 < r) (hy : y * y = r * r) :
    ∀ i, i < ([0, 1, 2, 3] : List Nat).length →
      Real.sqrt
        (((fun i => ([r, 0, -r, 0] : List ℝ).getD i 0) (next_idx ([0, 1, 2, 3] : List Nat).length i)
            - (fun i => ([r, 0, -r, 0] : List ℝ).getD i 0) (prev_idx ([0, 1, 2, 3] : List Nat).length i))
          * ((fun i => ([r, 0, -r, 0] : List ℝ).getD i 0) (next_idx ([0, 1, 2, 3] : List Nat).length i)
            - (fun i => ([r, 0, -r, 0] : List ℝ).getD i 0) (prev_idx ([0, 1, 2, 3] : List Nat).length i))
        + ((fun i => ([0, y, 0, -y] : List ℝ).getD i 0) (next_idx ([0, 1, 2, 3] : List Nat).length i)
            - (fun i => ([0, y, 0, -y] : List ℝ).getD i 0) (prev_idx ([0, 1, 2, 3] : List Nat).length i))
          * ((fun i => ([0, y, 0, -y] : List ℝ).getD i 0) (next_idx ([0, 1, 2, 3] : List Nat).length i)
            - (fun i => ([0, y, 0, -y] : List ℝ).getD i 0) (prev_idx ([0, 1, 2, 3] : List Nat).length i)))
        = 2 * r := by
  intro i hi
  simp only [List.length_cons, List.length_nil] at hi
  have h2 : Real.sqrt ((2 * r) * (2 * r)) = 2 * r := Real.sqrt_mul_self (by linarith)
  interval_cases i <;> simp [next_idx, prev_idx] <;> rw [← h2] <;> congr 1 <;> nlinarith

/-- Claim C7, as the code has it: one `apply` does not increase the area error
`|desired_area - current_area|` when the body has at least three different objects at
numeric positions, is wound so that the shoelace sum is not positive (the winding for which
the normal of the code points out of the polygon), `desired_area` is not negative, and the
two neighbours of every vertex are, at the start of the call, more than two correction
steps apart and at most 800 minus two correction steps apart; a correction step is
`0.01 * |delta|`, `delta = (desired_area - current_area) / (2 * points)`.  This holds for
every call that starts in such a state, the first or a later one. -/
theorem VerletSoftBody.apply_area_error (b : VerletSoftBody ℝ) (h : Store ℝ) (X Y : Nat → ℝ)
    (A S : ℝ) (hn : 3 ≤ b.vertices.length) (hnd : b.vertices.Nodup)
    (hpos : ∀ i, i < b.vertices.length →
      (h (b.vertices.getD i 0)).curr_position = vec (X i) (Y i))
    (hA : b.desired_area = num A) (hA0 : 0 ≤ A)
    (hS : shoelace b.vertices h = num S) (hS0 : S ≤ 0)
    (hsep : ∀ i, i < b.vertices.length →
      2 * |1 / 100 * ((A - |S| / 2) / (b.vertices.length * 2))| < Real.sqrt
        ((X (next_idx b.vertices.length i) - X (prev_idx b.vertices.length i))
          * (X (next_idx b.vertices.length i) - X (prev_idx b.vertices.length i))
        + (Y (next_idx b.vertices.length i) - Y (prev_idx b.vertices.length i))
          * (Y (next_idx b.vertices.length i) - Y (prev_idx b.vertices.length i)))
      ∧ Real.sqrt
        ((X (next_idx b.vertices.length i) - X (prev_idx b.vertices.length i))
          * (X (next_idx b.vertices.length i) - X (prev_idx b.vertices.length i))
        + (Y (next_idx b.vertices.length i) - Y (prev_idx b.vertices.length i))
          * (Y (next_idx b.vertices.length i) - Y (prev_idx b.vertices.length i)))
          + 2 * |1 / 100 * ((A - |S| / 2) / (b.vertices.length * 2))| ≤ 800) :
    ∃ a a1 : ℝ, current_area b.vertices h = num a
      ∧ current_area b.vertices (apply Real.sqrt b h) = num a1
      ∧ |A - a1| ≤ |A - a| := by
  have hSe : S = shoelaceSum b.vertices.length X Y := by
    have := VerletSoftBody.shoelace_eval b.vertices h X Y hpos
    rw [hS] at this
    exact Flt.num.inj this
  obtain ⟨L, hL, hL0, hL1⟩ := VerletSoftBody.apply_shoelace b h X Y A
    ((A - |S| / 2) / (b.vertices.length * 2)) 0 800 (by omega) hnd hpos hA (by rw [hSe])
    (fun i hi => ⟨(hsep i hi).1, by linarith [(hsep i hi).1], (hsep i hi).2⟩)
  refine ⟨|S| / 2, _, VerletSoftBody.current_area_eval _ _ _ hS,
    VerletSoftBody.current_area_eval _ _ _ hL, ?_⟩
  rw [← hSe]
  have hnpos : (0 : ℝ) < b.vertices.length := by
    have : 0 < b.vertices.length := by omega
    exact_mod_cast this
  rw [mul_zero] at hL0
  have hlam0 : 0 ≤ L / (400 * b.vertices.length) := by positivity
  have hlam2 : L / (400 * b.vertices.length) ≤ 2 := by
    rw [div_le_iff₀ (by positivity)]
    linarith
  have hu : S - 1 / 100 * ((A - |S| / 2) / (b.vertices.length * 2)) * L
      = -(2 * (|S| / 2 + (A - |S| / 2) * (L / (400 * b.vertices.length)))) := by
    rw [abs_of_nonpos hS0]
    field_simp
    ring
  rw [hu, abs_neg, abs_mul, abs_of_pos (by norm_num : (0 : ℝ) < 2), mul_div_cancel_left₀ _
    (by norm_num : (2 : ℝ) ≠ 0)]
  apply area_error_le A (|S| / 2) _ (by positivity) hA0
  · intro he
    exact ⟨mul_nonneg he hlam0, by nlinarith⟩
  · intro he
    exact ⟨by nlinarith, mul_nonpos_of_nonpos_of_nonneg he hlam0⟩

/-- The shoelace sum of a square body before a call of `apply`. -/
theorem squareStore_shoelace (r y : ℝ) :
    shoelace ([0, 1, 2, 3] : List Nat) (squareStore r y : Store ℝ) = num (4 * r * y) := by
  rw [VerletSoftBody.shoelace_eval _ _ _ _ (squareStore_pos r y), squareStore_sum]

/-- The shoelace sum of a square body after one `apply`. -/
theorem squareStore_apply (r y A d lo hi : ℝ) (hr : 0 < r) (hy : y * y = r * r)
    (hd : d = (A - |4 * r * y| / 2) / 8)
    (h1 : 2 * |1 / 100 * d| < 2 * r) (h2 : lo + 2 * |1 / 100 * d| ≤ 2 * r)
    (h3 : 2 * r + 2 * |1 / 100 * d| ≤ hi) :
    ∃ L : ℝ,
      shoelace ([0, 1, 2, 3] : List Nat) (apply Real.sqrt (squareBody A) (squareStore r y))
        = num (4 * r * y - 1 / 100 * d * L)
      ∧ 4 * lo ≤ L ∧ L ≤ 4 * hi := by
  have hlen : (((squareBody A : VerletSoftBody ℝ).vertices.length : Nat) : ℝ) = 4 := by
    simp [squareBody]
  obtain ⟨L, hL, hL0, hL1⟩ := VerletSoftBody.apply_shoelace (squareBody A) (squareStore r y)
    (fun i => ([r, 0, -r, 0] : List ℝ).getD i 0) (fun i => ([0, y, 0, -y] : List ℝ).getD i 0)
    A d lo hi (by simp [squareBody]) (by simp [squareBody]) (squareStore_pos r y) rfl
    (by
      rw [hlen]
      have := squareStore_sum r y
      simp only [squareBody] at this ⊢
      rw [this, hd]
      norm_num)
    (by
      intro i hi
      have := squareStore_sep r y hr hy i hi
      simp only [squareBody] at this ⊢
      rw [this]
      exact ⟨h1, h2, h3⟩)
  rw [hlen] at hL0 hL1
  have hsum := squareStore_sum r y
  simp only [squareBody] at hL hsum ⊢
  rw [hsum] at hL
  exact ⟨L, hL, hL0, hL1⟩

/-- Claim C7, as the code has it, on the square of circumradius 1 with a negative
shoelace sum and desired area 10. -/
theorem VerletSoftBody.apply_area_error_witness :
    ∃ a a1 : ℝ, current_area (squareBody (10 : ℝ)).vertices (squareStore 1 (-1)) = num a
      ∧ current_area (squareBody (10 : ℝ)).vertices
          (apply Real.sqrt (squareBody 10) (squareStore 1 (-1))) = num a1
      ∧ |10 - a1| ≤ |10 - a| :=
  VerletSoftBody.apply_area_error (squareBody 10) (squareStore 1 (-1))
    (fun i => ([1, 0, -1, 0] : List ℝ).getD i 0) (fun i => ([0, -1, 0, - -1] : List ℝ).getD i 0)
    10 (-4) (by decide) (by decide) (squareStore_pos 1 (-1)) rfl (by norm_num)
    (by
      have := squareStore_shoelace 1 (-1)
      norm_num at this
      exact this)
    (by norm_num)
    (by
      intro i hi
      have hlen : (((squareBody 10 : VerletSoftBody ℝ).vertices.length : Nat) : ℝ) = 4 := by
        simp [squareBody]
      have := squareStore_sep 1 (-1) (by norm_num) (by norm_num) i hi
      simp only [squareBody] at this hlen ⊢
      rw [this, hlen]
      norm_num [abs_of_pos])

/-- Claim C7 fails as stated.  A square of circumradius 1 wound with a positive
shoelace sum has area 2; with desired area 10 one `apply` moves every corner inwards and
the area error grows.  A square of circumradius 1000 in the other winding has area
2000000; with desired area 2000800 one `apply` overshoots and the area error grows. -/
theorem VerletSoftBody.apply_area_error_counterexample :
    (∃ a a1 : ℝ, current_area (squareBody (10 : ℝ)).vertices (squareStore 1 1) = num a
      ∧ current_area (squareBody (10 : ℝ)).vertices
          (apply Real.sqrt (squareBody 10) (squareStore 1 1)) = num a1
      ∧ a ≠ 10 ∧ |10 - a| < |10 - a1|)
    ∧ (∃ a a1 : ℝ,
      current_area (squareBody (2000800 : ℝ)).vertices (squareStore 1000 (-1000)) = num a
      ∧ current_area (squareBody (2000800 : ℝ)).vertices
          (apply Real.sqrt (squareBody 2000800) (squareStore 1000 (-1000))) = num a1
      ∧ a ≠ 2000800 ∧ |2000800 - a| < |2000800 - a1|) := by
  constructor
  · obtain ⟨L, hL, hL0, hL1⟩ := squareStore_apply 1 1 10 1 (99 / 50) (101 / 50) (by norm_num)
      (by norm_num) (by norm_num [abs_of_pos]) (by norm_num [abs_of_pos])
      (by norm_num [abs_of_pos]) (by norm_num [abs_of_pos])
    refine ⟨_, _, VerletSoftBody.current_area_eval _ _ _ (squareStore_shoelace 1 1),
      VerletSoftBody.current_area_eval _ _ _ hL, ?_, ?_⟩
    · norm_num [abs_of_pos]
    · have e1 : |(4 : ℝ) * 1 * 1| = 4 := by norm_num [abs_of_pos]
      have e2 : |(4 : ℝ) * 1 * 1 - 1 / 100 * 1 * L| = 4 - 1 / 100 * L := by
        rw [abs_of_nonneg (by linarith)]; ring
      rw [e1, e2, abs_of_nonneg (by norm_num), abs_of_nonneg (by linarith)]
      linarith
  · obtain ⟨L, hL, hL0, hL1⟩ := squareStore_apply 1000 (-1000) 2000800 100 1998 2002
      (by norm_num) (by norm_num) (by norm_num [abs_of_pos]) (by norm_num [abs_of_pos])
      (by norm_num [abs_of_pos]) (by norm_num [abs_of_pos])
    refine ⟨_, _, VerletSoftBody.current_area_eval _ _ _ (squareStore_shoelace 1000 (-1000)),
      VerletSoftBody.current_area_eval _ _ _ hL, ?_, ?_⟩
    · norm_num [abs_of_pos]
    · have e1 : |(4 : ℝ) * 1000 * -1000| = 4000000 := by norm_num [abs_of_pos]
      have e2 : |(4 : ℝ) * 1000 * -1000 - 1 / 100 * 100 * L| = 4000000 + L := by
        rw [abs_of_nonpos (by linarith)]; ring
      rw [e1, e2, abs_of_nonneg (by norm_num), abs_of_nonpos (by linarith)]
      linarith

end Verlet

/-! ## Theorems on the shoelace area -/

namespace Verlet

open Flt Vector2f VerletSoftBody

/-- A sum over a cycle can start one place later. -/
theorem sum_succ_mod (n : Nat) (g : Nat → ℝ) :
    ∑ i in Finset.range n, g ((i + 1) % n) = ∑ i in Finset.range n, g i := by
  cases n with
  | zero => simp
  | succ m =>
    rw [Finset.sum_range_succ, Finset.sum_range_succ', Nat.mod_self]
    congr 1
    apply Finset.sum_congr rfl
    intro i hi
    rw [Nat.mod_eq_of_lt (by have := Finset.mem_range.mp hi; omega)]

/-- A sum over a cycle can start `k` places later. -/
theorem sum_add_mod (n k : Nat) : ∀ g : Nat → ℝ,
    ∑ i in Finset.range n, g ((i + k) % n) = ∑ i in Finset.range n, g i := by
  induction k with
  | zero =>
    intro g
    apply Finset.sum_congr rfl
    intro i hi
    rw [Nat.add_zero, Nat.mod_eq_of_lt (Finset.mem_range.mp hi)]
  | succ k ih =>
    intro g
    rw [← ih g, ← sum_succ_mod n (fun j => g ((j + k) % n))]
    apply Finset.sum_congr rfl
    intro i _
    simp only [Nat.mod_add_mod]
    congr 2
    omega

/-- A sum over a cycle can start one place earlier. -/
theorem sum_prev_idx (n : Nat) (g : Nat → ℝ) :
    ∑ i in Finset.range n, g (prev_idx n i) = ∑ i in Finset.range n, g i := by
  rw [← sum_succ_mod n (fun j => g (prev_idx n j))]
  apply Finset.sum_congr rfl
  intro i hi
  have hi := Finset.mem_range.mp hi
  rw [VerletSoftBody.succ_mod hi]
  have e : prev_idx n (next_idx n i) = i := by
    unfold prev_idx next_idx
    split_ifs <;> first | omega | contradiction
  simp only [e]

/-- The shoelace sum of a cyclic rotation of the points is the shoelace sum of the points. -/
theorem VerletSoftBody.shoelaceSum_rotate (n k : Nat) (X Y : Nat → ℝ) :
    shoelaceSum n (fun i => X ((i + k) % n)) (fun i => Y ((i + k) % n)) = shoelaceSum n X Y := by
  unfold shoelaceSum
  rw [← sum_add_mod n k (fun j => X j * Y ((j + 1) % n) - X ((j + 1) % n) * Y j)]
  apply Finset.sum_congr rfl
  intro i _
  have e : ((i + 1) % n + k) % n = ((i + k) % n + 1) % n := by
    rw [Nat.mod_add_mod, Nat.mod_add_mod]
    congr 1
    omega
  simp only [e]

/-- The shoelace sum of the points in reverse order is minus the shoelace sum of the
points. -/
theorem VerletSoftBody.shoelaceSum_reverse (n : Nat) (X Y : Nat → ℝ) :
    shoelaceSum n (fun i => X (n - 1 - i)) (fun i => Y (n - 1 - i)) = -shoelaceSum n X Y := by
  unfold shoelaceSum
  have h1 : ∑ i in Finset.range n,
      (X (n - 1 - i) * Y (n - 1 - (i + 1) % n) - X (n - 1 - (i + 1) % n) * Y (n - 1 - i))
      = ∑ i in Finset.range n,
        (fun a => X a * Y (prev_idx n a) - X (prev_idx n a) * Y a) (n - 1 - i) := by
    apply Finset.sum_congr rfl
    intro i hi
    have hi := Finset.mem_range.mp hi
    have e : n - 1 - (i + 1) % n = prev_idx n (n - 1 - i) := by
      rw [VerletSoftBody.succ_mod hi]
      unfold prev_idx next_idx
      split_ifs <;> omega
    simp only [e]
  have h2 : ∑ i in Finset.range n, (X i * Y ((i + 1) % n) - X ((i + 1) % n) * Y i)
      = ∑ i in Finset.range n,
        (fun j => X j * Y ((j + 1) % n) - X ((j + 1) % n) * Y j) (prev_idx n i) :=
    (sum_prev_idx n _).symm
  rw [h1, Finset.sum_range_reflect (fun a => X a * Y (prev_idx n a) - X (prev_idx n a) * Y a) n,
    h2, ← Finset.sum_neg_distrib]
  apply Finset.sum_congr rfl
  intro a ha
  have ha := Finset.mem_range.mp ha
  have e : (prev_idx n a + 1) % n = a := by
    rw [VerletSoftBody.succ_mod (VerletSoftBody.prev_idx_lt ha)]
    unfold prev_idx next_idx
    split_ifs <;> omega
  simp only [e]
  ring

/-- A sum of floats with a non-numeric start or a non-numeric term is non-numeric. -/
theorem Flt.foldl_add_nan (f : Nat → Flt ℝ) (l : List Nat) :
    ∀ a : Flt ℝ, (a = nan ∨ ∃ i ∈ l, f i = nan) → l.foldl (fun acc i => acc + f i) a = nan := by
  induction l with
  | nil =>
    intro a ha
    rcases ha with ha | ⟨i, hi, _⟩
    · simpa using ha
    · simp at hi
  | cons j l ih =>
    intro a ha
    rw [List.foldl_cons]
    apply ih
    rcases ha with ha | ⟨i, hi, hfi⟩
    · left; rw [ha]; simp
    · rcases List.mem_cons.mp hi with rfl | hi
      · left; rw [hfi]; simp
      · right; exact ⟨i, hi, hfi⟩

/-- The shoelace sum is non-numeric as soon as one vertex has a non-numeric position. -/
theorem VerletSoftBody.shoelace_nan (vs : List Nat) (h : Store ℝ) (v : Nat) (hv : v ∈ vs)
    (hbad : ¬∃ x y : ℝ, (h v).curr_position = vec x y) : shoelace vs h = nan := by
  obtain ⟨i, hi, rfl⟩ := List.getElem_of_mem hv
  rw [← List.getD_eq_getElem vs 0 hi] at hbad
  unfold shoelace
  apply Flt.foldl_add_nan _ _ _ (Or.inr ⟨i, List.mem_range.mpr hi, ?_⟩)
  generalize (h (vs.getD i 0)).curr_position = p at hbad
  obtain ⟨px, py⟩ := p
  cases px with
  | nan => simp
  | num x =>
    cases py with
    | nan => simp
    | num y => exact absurd ⟨x, y, rfl⟩ hbad

/-- The local `current_area` of a non-numeric shoelace sum. -/
theorem VerletSoftBody.current_area_nan (vs : List Nat) (h : Store ℝ)
    (hS : shoelace vs h = nan) : current_area vs h = nan := by
  simp [current_area, hS, Flt.abs]

/-- Claim C16: the area computed by `apply` does not depend on the winding direction or on
the starting vertex.  For every sequence of vertices and every store, `current_area` of the
reversed sequence and of every cyclic rotation of the sequence is `current_area` of the
sequence. -/
theorem VerletSoftBody.current_area_winding (vs : List Nat) (h : Store ℝ) :
    current_area vs.reverse h = current_area vs h
    ∧ ∀ k : Nat, current_area (vs.rotate k) h = current_area vs h := by
  by_cases hall : ∀ v, ∃ x y : ℝ, v ∈ vs → (h v).curr_position = vec x y
  · choose PX PY hP using hall
    have hpos : ∀ i, i < vs.length → (h (vs.getD i 0)).curr_position
        = vec (PX (vs.getD i 0)) (PY (vs.getD i 0)) := by
      intro i hi
      apply hP
      rw [List.getD_eq_getElem vs 0 hi]
      exact List.getElem_mem _
    have h0 := VerletSoftBody.current_area_eval vs h _
      (VerletSoftBody.shoelace_eval vs h _ _ hpos)
    constructor
    · have hrev : ∀ i, i < vs.reverse.length → (h (vs.reverse.getD i 0)).curr_position
          = vec ((fun i => (fun j => PX (vs.getD j 0)) (vs.length - 1 - i)) i)
              ((fun i => (fun j => PY (vs.getD j 0)) (vs.length - 1 - i)) i) := by
        intro i hi
        have hi2 : i < vs.length := by simpa using hi
        have e : vs.reverse.getD i 0 = vs.getD (vs.length - 1 - i) 0 := by
          rw [List.getD_eq_getElem _ 0 hi, List.getElem_reverse,
            List.getD_eq_getElem _ 0 (by omega)]
        rw [e]
        exact hpos _ (by omega)
      rw [VerletSoftBody.current_area_eval _ _ _
        (VerletSoftBody.shoelace_eval vs.reverse h _ _ hrev), h0, List.length_reverse,
        VerletSoftBody.shoelaceSum_reverse vs.length (fun j => PX (vs.getD j 0))
          (fun j => PY (vs.getD j 0)), abs_neg]
    · intro k
      have hrot : ∀ i, i < (vs.rotate k).length → (h ((vs.rotate k).getD i 0)).curr_position
          = vec ((fun i => (fun j => PX (vs.getD j 0)) ((i + k) % vs.length)) i)
              ((fun i => (fun j => PY (vs.getD j 0)) ((i + k) % vs.length)) i) := by
        intro i hi
        have hi2 : i < vs.length := by simpa using hi
        have hm : (i + k) % vs.length < vs.length := Nat.mod_lt _ (by omega)
        have e : (vs.rotate k).getD i 0 = vs.getD ((i + k) % vs.length) 0 := by
          rw [List.getD_eq_getElem _ 0 hi, List.getElem_rotate,
            List.getD_eq_getElem _ 0 hm]
        rw [e]
        exact hpos _ hm
      rw [VerletSoftBody.current_area_eval _ _ _
        (VerletSoftBody.shoelace_eval (vs.rotate k) h _ _ hrot), h0, List.length_rotate,
        VerletSoftBody.shoelaceSum_rotate vs.length k (fun j => PX (vs.getD j 0))
          (fun j => PY (vs.getD j 0))]
  · push_neg at hall
    obtain ⟨v, hv⟩ := hall
    have hmem : v ∈ vs := (hv 0 0).1
    have hbad : ¬∃ x y : ℝ, (h v).curr_position = vec x y := by
      rintro ⟨x, y, hxy⟩
      exact (hv x y).2 hxy
    rw [VerletSoftBody.current_area_nan vs h (VerletSoftBody.shoelace_nan vs h v hmem hbad)]
    exact ⟨VerletSoftBody.current_area_nan _ _
        (VerletSoftBody.shoelace_nan _ h v (List.mem_reverse.mpr hmem) hbad),
      fun k => VerletSoftBody.current_area_nan _ _
        (VerletSoftBody.shoelace_nan _ h v (List.mem_rotate.mpr hmem) hbad)⟩

end Verlet

/-! ## Theorems on regular polygons -/

namespace Verlet

open Flt Vector2f VerletSoftBody

/-- The angle between two consecutive corners of a regular polygon has the sine of
`2 * π / n`, also from the last corner back to the first. -/
theorem sin_step (n i : Nat) (hn : 0 < n) (hi : i < n) :
    Real.sin (2 * Real.pi * ((i + 1) % n : Nat) / n - 2 * Real.pi * i / n)
      = Real.sin (2 * Real.pi / n) := by
  have hn0 : (n : ℝ) ≠ 0 := by exact_mod_cast hn.ne'
  by_cases h : i + 1 = n
  · rw [h, Nat.mod_self]
    have hi' : (i : ℝ) = n - 1 := by
      have : ((i + 1 : Nat) : ℝ) = n := by exact_mod_cast h
      push_cast at this
      linarith
    have e : 2 * Real.pi * ((0 : Nat) : ℝ) / n - 2 * Real.pi * i / n
        = 2 * Real.pi / n - 2 * Real.pi := by
      rw [hi']; field_simp; ring
    rw [e, Real.sin_sub_two_pi]
  · rw [Nat.mod_eq_of_lt (by omega)]
    congr 1
    push_cast
    field_simp
    ring

/-- The shoelace sum of the corners of a regular polygon with `n` corners, centre
`(cx, cy)` and circumradius `r`. -/
theorem VerletSoftBody.shoelaceSum_regular (n : Nat) (hn : 0 < n) (cx cy r : ℝ) :
    shoelaceSum n (fun i => cx + r * Real.cos (2 * Real.pi * i / n))
      (fun i => cy + r * Real.sin (2 * Real.pi * i / n))
      = n * (r ^ 2 * Real.sin (2 * Real.pi / n)) := by
  unfold shoelaceSum
  have key : ∀ i ∈ Finset.range n,
      ((cx + r * Real.cos (2 * Real.pi * i / n))
          * (cy + r * Real.sin (2 * Real.pi * ((i + 1) % n : Nat) / n))
        - (cx + r * Real.cos (2 * Real.pi * ((i + 1) % n : Nat) / n))
          * (cy + r * Real.sin (2 * Real.pi * i / n)))
      = r ^ 2 * Real.sin (2 * Real.pi / n)
        + (cx * r * ((fun j : Nat => Real.sin (2 * Real.pi * j / n)) ((i + 1) % n)
              - (fun j : Nat => Real.sin (2 * Real.pi * j / n)) i)
          - cy * r * ((fun j : Nat => Real.cos (2 * Real.pi * j / n)) ((i + 1) % n)
              - (fun j : Nat => Real.cos (2 * Real.pi * j / n)) i)) := by
    intro i hi
    have hs := sin_step n i hn (Finset.mem_range.mp hi)
    rw [Real.sin_sub] at hs
    simp only
    rw [← hs]
    ring
  have hS : ∑ i in Finset.range n,
      ((fun j : Nat => Real.sin (2 * Real.pi * j / n)) ((i + 1) % n)
        - (fun j : Nat => Real.sin (2 * Real.pi * j / n)) i) = 0 := by
    rw [Finset.sum_sub_distrib]
    exact sub_eq_zero.mpr (sum_succ_mod n (fun j : Nat => Real.sin (2 * Real.pi * j / n)))
  have hC : ∑ i in Finset.range n,
      ((fun j : Nat => Real.cos (2 * Real.pi * j / n)) ((i + 1) % n)
        - (fun j : Nat => Real.cos (2 * Real.pi * j / n)) i) = 0 := by
    rw [Finset.sum_sub_distrib]
    exact sub_eq_zero.mpr (sum_succ_mod n (fun j : Nat => Real.cos (2 * Real.pi * j / n)))
  rw [Finset.sum_congr rfl key, Finset.sum_add_distrib, Finset.sum_sub_distrib,
    ← Finset.mul_sum (Finset.range n) _ (cx * r), ← Finset.mul_sum (Finset.range n) _ (cy * r),
    hS, hC, Finset.sum_const, Finset.card_range]
  simp

/-- Claim C11: for a body whose `n ≥ 3` vertices are the corners
`c + r * (cos (2 π i / n), sin (2 π i / n))` of a regular polygon with `r > 0`, the
`current_area` that `apply` computes is the closed form `(n / 2) * r ^ 2 * sin (2 π / n)`. -/
theorem VerletSoftBody.current_area_regular (vs : List Nat) (h : Store ℝ) (cx cy r : ℝ)
    (hn : 3 ≤ vs.length) (hr : 0 < r)
    (hpos : ∀ i, i < vs.length → (h (vs.getD i 0)).curr_position
      = vec (cx + r * Real.cos (2 * Real.pi * i / vs.length))
          (cy + r * Real.sin (2 * Real.pi * i / vs.length))) :
    current_area vs h
      = num ((vs.length : ℝ) / 2 * r ^ 2 * Real.sin (2 * Real.pi / vs.length)) := by
  rw [VerletSoftBody.current_area_eval _ _ _ (VerletSoftBody.shoelace_eval vs h _ _ hpos),
    VerletSoftBody.shoelaceSum_regular _ (by omega)]
  have hn3 : (3 : ℝ) ≤ vs.length := by exact_mod_cast hn
  have hsin : 0 < Real.sin (2 * Real.pi / vs.length) := by
    apply Real.sin_pos_of_pos_of_lt_pi
    · have := Real.pi_pos; positivity
    · rw [div_lt_iff₀ (by linarith)]
      nlinarith [Real.pi_pos]
  rw [abs_of_nonneg (by positivity)]
  congr 1
  ring

/-- The corners of `squareStore 1 1` are the corners of the regular polygon with four
corners, centre `(0, 0)` and circumradius 1. -/
theorem squareStore_regular : ∀ i, i < ([0, 1, 2, 3] : List Nat).length →
    ((squareStore 1 1 : Store ℝ) (([0, 1, 2, 3] : List Nat).getD i 0)).curr_position
      = vec (0 + 1 * Real.cos (2 * Real.pi * i / ([0, 1, 2, 3] : List Nat).length))
          (0 + 1 * Real.sin (2 * Real.pi * i / ([0, 1, 2, 3] : List Nat).length)) := by
  intro i hi
  rw [squareStore_pos 1 1 i hi, Vector2f.vec_inj]
  have e1 : 2 * Real.pi * ((1 : Nat) : ℝ) / ((4 : Nat) : ℝ) = Real.pi / 2 := by
    push_cast; ring
  have e2 : 2 * Real.pi * ((2 : Nat) : ℝ) / ((4 : Nat) : ℝ) = Real.pi := by
    push_cast; ring
  have e3 : 2 * Real.pi * ((3 : Nat) : ℝ) / ((4 : Nat) : ℝ) = Real.pi + Real.pi / 2 := by
    push_cast; ring
  have hlen : ([0, 1, 2, 3] : List Nat).length = 4 := rfl
  rw [hlen] at hi ⊢
  interval_cases i
  · simp
  · rw [e1]; simp
  · rw [e2]; simp
  · rw [e3, Real.cos_add_pi_div_two, Real.sin_add_pi_div_two]; simp

/-- Claim C11 on the square of circumradius 1 centred at the origin. -/
theorem VerletSoftBody.current_area_regular_witness :
    current_area ([0, 1, 2, 3] : List Nat) (squareStore 1 1 : Store ℝ)
      = num (((([0, 1, 2, 3] : List Nat).length : Nat) : ℝ) / 2 * 1 ^ 2
          * Real.sin (2 * Real.pi / ((([0, 1, 2, 3] : List Nat).length : Nat) : ℝ))) :=
  VerletSoftBody.current_area_regular [0, 1, 2, 3] (squareStore 1 1) 0 0 1 (by decide)
    (by norm_num) squareStore_regular

end Verlet

/-! ## Theorems on `updateColour` -/

namespace Verlet

open Flt Vector2f

/-- The cosine is within `|x| ^ 6 * 7 / 4320` of `1 - x ^ 2 / 2 + x ^ 4 / 24`. -/
theorem cos_taylor (x : ℝ) (hx : |x| ≤ 1) :
    |Real.cos x - (1 - x ^ 2 / 2 + x ^ 4 / 24)| ≤ |x| ^ 6 * (7 / 4320) := by
  have habs : Complex.abs (x * Complex.I) = |x| := by simp
  have hb := Complex.exp_bound (x := x * Complex.I) (by rw [habs]; exact hx)
    (by norm_num : 0 < 6)
  have hre : (Complex.exp (x * Complex.I)
      - ∑ m in Finset.range 6, (x * Complex.I) ^ m / (m.factorial : ℂ)).re
      = Real.cos x - (1 - x ^ 2 / 2 + x ^ 4 / 24) := by
    rw [Complex.sub_re, Complex.exp_ofReal_mul_I_re]
    congr 1
    simp only [Finset.sum_range_succ, Finset.range_zero, Finset.sum_empty, mul_pow,
      Nat.factorial]
    have hI2 : Complex.I ^ 2 = -1 := Complex.I_sq
    have hI3 : Complex.I ^ 3 = -Complex.I := by rw [pow_succ, hI2]; ring
    have hI4 : Complex.I ^ 4 = 1 := Complex.I_pow_four
    have hI5 : Complex.I ^ 5 = Complex.I := by rw [pow_succ, hI4]; ring
    rw [hI2, hI3, hI4, hI5]
    simp [← Complex.ofReal_pow, Complex.div_re, Complex.normSq]
    ring
  have h1 := Complex.abs_re_le_abs (Complex.exp (x * Complex.I)
      - ∑ m in Finset.range 6, (x * Complex.I) ^ m / (m.factorial : ℂ))
  rw [hre] at h1
  rw [habs] at hb
  calc |Real.cos x - (1 - x ^ 2 / 2 + x ^ 4 / 24)|
      ≤ _ := h1
    _ ≤ _ := hb
    _ = |x| ^ 6 * (7 / 4320) := by norm_num [Nat.factorial]

/-- Bounds of the cosine on an interval `[a, b]` inside `[0, 1]`. -/
theorem cos_between (x a b : ℝ) (ha : 0 ≤ a) (hax : a ≤ x) (hxb : x ≤ b) (hb : b ≤ 1) :
    1 - b ^ 2 / 2 + b ^ 4 / 24 - b ^ 6 * (7 / 4320) ≤ Real.cos x
    ∧ Real.cos x ≤ 1 - a ^ 2 / 2 + a ^ 4 / 24 + a ^ 6 * (7 / 4320) := by
  have hpi : (1 : ℝ) ≤ Real.pi := by linarith [Real.pi_gt_three]
  have h1 := Real.cos_le_cos_of_nonneg_of_le_pi (by linarith : (0 : ℝ) ≤ x)
    (by linarith : b ≤ Real.pi) hxb
  have h2 := Real.cos_le_cos_of_nonneg_of_le_pi ha (by linarith : x ≤ Real.pi) hax
  have ta := abs_le.mp (cos_taylor a (by rw [abs_of_nonneg ha]; linarith))
  have tb := abs_le.mp (cos_taylor b (by rw [abs_of_nonneg (by linarith)]; linarith))
  rw [abs_of_nonneg ha] at ta
  rw [abs_of_nonneg (by linarith : (0 : ℝ) ≤ b)] at tb
  constructor
  · linarith [tb.1]
  · linarith [ta.2]

/-- The green channel: `255 * sin (0.33 * 2 * π) ^ 2` is between 195 and 196. -/
theorem green_bounds :
    (195 : ℝ) ≤ 255 * Real.sin (33 / 100 * 2 * Real.pi) * Real.sin (33 / 100 * 2 * Real.pi)
    ∧ 255 * Real.sin (33 / 100 * 2 * Real.pi) * Real.sin (33 / 100 * 2 * Real.pi) < 196 := by
  have e : Real.sin (33 / 100 * 2 * Real.pi) = Real.cos (16 / 100 * Real.pi) := by
    rw [← Real.sin_add_pi_div_two]; congr 1; ring
  have hlo := Real.pi_gt_d2
  have hhi := Real.pi_lt_d2
  obtain ⟨h1, h2⟩ := cos_between (16 / 100 * Real.pi) (16 / 100 * 3.14) (16 / 100 * 3.15)
    (by norm_num) (by linarith) (by linarith) (by norm_num)
  have c1 : (0.8756 : ℝ) ≤ Real.cos (16 / 100 * Real.pi) := by
    refine le_trans ?_ h1; norm_num
  have c2 : Real.cos (16 / 100 * Real.pi) ≤ 0.8765 := by
    refine le_trans h2 ?_; norm_num
  rw [e]
  constructor <;> nlinarith

/-- The blue channel: `255 * sin (0.66 * 2 * π) ^ 2` is between 181 and 182. -/
theorem blue_bounds :
    (181 : ℝ) ≤ 255 * Real.sin (66 / 100 * 2 * Real.pi) * Real.sin (66 / 100 * 2 * Real.pi)
    ∧ 255 * Real.sin (66 / 100 * 2 * Real.pi) * Real.sin (66 / 100 * 2 * Real.pi) < 182 := by
  have e : Real.sin (66 / 100 * 2 * Real.pi) = -Real.cos (18 / 100 * Real.pi) := by
    have e1 : (66 / 100 * 2 * Real.pi : ℝ) = (Real.pi / 2 - 18 / 100 * Real.pi) + Real.pi := by
      ring
    rw [e1, Real.sin_add_pi, Real.sin_pi_div_two_sub]
  have hlo := Real.pi_gt_d2
  have hhi := Real.pi_lt_d2
  obtain ⟨h1, h2⟩ := cos_between (18 / 100 * Real.pi) (18 / 100 * 3.14) (18 / 100 * 3.15)
    (by norm_num) (by linarith) (by linarith) (by norm_num)
  have c1 : (0.8426 : ℝ) ≤ Real.cos (18 / 100 * Real.pi) := by
    refine le_trans ?_ h1; norm_num
  have c2 : Real.cos (18 / 100 * Real.pi) ≤ 0.8448 := by
    refine le_trans h2 ?_; norm_num
  rw [e]
  constructor <;> nlinarith

/-- The conversion to 8 bits of a number between `n` and `n + 1`, `n < 256`. -/
theorem Flt.toUInt8_eq (a : ℝ) (n : Nat) (hn : n < 256) (h1 : (n : ℝ) ≤ a) (h2 : a < n + 1) :
    Flt.toUInt8 (num a) = n := by
  have h0 : 0 ≤ a := le_trans (Nat.cast_nonneg n) h1
  have : Nat.floor a = n := (Nat.floor_eq_iff h0).mpr ⟨h1, h2⟩
  simp only [Flt.toUInt8, this]
  exact Nat.mod_eq_of_lt hn

/-- The colour `updateColour` gives an object at rest: `(0, 195, 181)`. -/
theorem VerletObject.updateColour_rest (o : VerletObject ℝ) (cx cy dt : ℝ)
    (hc : o.curr_position = vec cx cy) (hl : o.last_position = vec cx cy) (hdt : dt ≠ 0) :
    (o.updateColour Real.sqrt Real.sin Real.pi (num dt)).colour = ⟨0, 195, 181, 255⟩ := by
  have hg := Flt.toUInt8_eq _ 195 (by norm_num) green_bounds.1 (by
    have := green_bounds.2; norm_num at this ⊢; linarith)
  have hb := Flt.toUInt8_eq _ 181 (by norm_num) blue_bounds.1 (by
    have := blue_bounds.2; norm_num at this ⊢; linarith)
  have hr : Flt.toUInt8 (num (0 : ℝ)) = 0 := by simp [Flt.toUInt8]
  simp only [VerletObject.updateColour, VerletObject.getVelocity, hc, hl, COLOUR_COEFFICIENT,
    Vector2f.sub_x, Vector2f.sub_y, Vector2f.div_x, Vector2f.div_y, Vector2f.vec_x,
    Vector2f.vec_y, Flt.num_sub_num, Flt.num_div_of_ne _ hdt, sub_self, zero_div,
    Flt.num_mul_num, Flt.num_add_num, mul_zero, add_zero, Flt.sqrt_num _ (le_refl (0 : ℝ)),
    Real.sqrt_zero, Flt.map, Real.sin_zero, zero_add, hg, hb, hr]

/-- With the phase `2 * π / 3` the green channel would be 191. -/
theorem green_thirds :
    Flt.toUInt8 (num (255 * Real.sin (2 * Real.pi / 3) * Real.sin (2 * Real.pi / 3))) = 191 := by
  have e : Real.sin (2 * Real.pi / 3) = Real.sqrt 3 / 2 := by
    rw [← Real.sin_pi_div_three, ← Real.sin_pi_sub]; congr 1; ring
  have h3 : Real.sqrt 3 * Real.sqrt 3 = 3 := Real.mul_self_sqrt (by norm_num)
  have e2 : 255 * Real.sin (2 * Real.pi / 3) * Real.sin (2 * Real.pi / 3) = 191.25 := by
    rw [e]; linear_combination (255 / 4 : ℝ) * h3
  rw [e2]
  exact Flt.toUInt8_eq _ 191 (by norm_num) (by norm_num) (by norm_num)

/-- Claim C12, as the code has it: for an object with `curr_position = last_position` and
every `dt > 0`, `updateColour` sets the colour to `(0, 195, 181)`, the truncations of
`255 * sin (phase) ^ 2` for the phases `0`, `0.33 * 2 * π` and `0.66 * 2 * π` of the code. -/
theorem VerletObject.updateColour_zero_velocity (o : VerletObject ℝ) (cx cy dt : ℝ)
    (hc : o.curr_position = vec cx cy) (hl : o.last_position = vec cx cy) (hdt : 0 < dt) :
    (o.updateColour Real.sqrt Real.sin Real.pi (num dt)).colour
      = ⟨Flt.toUInt8 (num (255 * Real.sin 0 * Real.sin 0)),
          Flt.toUInt8 (num (255 * Real.sin (33 / 100 * 2 * Real.pi)
            * Real.sin (33 / 100 * 2 * Real.pi))),
          Flt.toUInt8 (num (255 * Real.sin (66 / 100 * 2 * Real.pi)
            * Real.sin (66 / 100 * 2 * Real.pi))), 255⟩
    ∧ (o.updateColour Real.sqrt Real.sin Real.pi (num dt)).colour = ⟨0, 195, 181, 255⟩ := by
  have h := VerletObject.updateColour_rest o cx cy dt hc hl hdt.ne'
  refine ⟨?_, h⟩
  rw [h, Flt.toUInt8_eq _ 195 (by norm_num) green_bounds.1 (by
      have := green_bounds.2; norm_num at this ⊢; linarith),
    Flt.toUInt8_eq _ 181 (by norm_num) blue_bounds.1 (by
      have := blue_bounds.2; norm_num at this ⊢; linarith)]
  simp [Flt.toUInt8]

/-- Claim C12, as the code has it, on the object created at `(0, 0)` with `dt = 1`. -/
theorem VerletObject.updateColour_zero_velocity_witness :
    ((VerletObject.new (vec 0 0) (num 10) false : VerletObject ℝ).updateColour Real.sqrt
      Real.sin Real.pi (num 1)).colour = ⟨0, 195, 181, 255⟩ :=
  (VerletObject.updateColour_zero_velocity _ 0 0 1 rfl rfl (by norm_num)).2

/-- Claim C12 fails as stated: the object created at `(0, 0)` has zero velocity, and with
`dt = 1` `updateColour` sets its colour to `(0, 195, 181)`, not to `(0, 191, 191)`, the
value the phases `2 * π / 3` and `4 * π / 3` would give. -/
theorem VerletObject.updateColour_counterexample :
    (VerletObject.new (vec 0 0) (num 10) false : VerletObject ℝ).curr_position
      = (VerletObject.new (vec 0 0) (num 10) false : VerletObject ℝ).last_position
    ∧ (0 : ℝ) < 1
    ∧ ((VerletObject.new (vec 0 0) (num 10) false : VerletObject ℝ).updateColour Real.sqrt
        Real.sin Real.pi (num 1)).colour.g = 195
    ∧ ((VerletObject.new (vec 0 0) (num 10) false : VerletObject ℝ).updateColour Real.sqrt
        Real.sin Real.pi (num 1)).colour.b = 181
    ∧ Flt.toUInt8 (num (255 * Real.sin (2 * Real.pi / 3) * Real.sin (2 * Real.pi / 3))) = 191
    ∧ ((VerletObject.new (vec 0 0) (num 10) false : VerletObject ℝ).updateColour Real.sqrt
        Real.sin Real.pi (num 1)).colour ≠ ⟨0, 191, 191, 255⟩ := by
  have h := VerletObject.updateColour_rest
    (VerletObject.new (vec 0 0) (num 10) false : VerletObject ℝ) 0 0 1 rfl rfl (by norm_num)
  refine ⟨rfl, by norm_num, by rw [h], by rw [h], green_thirds, ?_⟩
  rw [h]
  decide

end Verlet

/-! ## Theorems on frames, forces and midpoints -/

namespace Verlet

open Flt Vector2f

/-- A write to `curr_position` leaves the other fields of every object as they were. -/
theorem Store.setCurr_frame {F : Type} (h : Store F) (a b : Nat)
    (f : Vector2f F → Vector2f F) : (h.setCurr a f b).frame = (h b).frame := by
  by_cases hab : b = a
  · subst hab
    rw [Store.setCurr_same]
    rfl
  · rw [Store.setCurr_ne _ _ hab]

/-- The method `VerletConstraint::apply` writes `curr_position` only. -/
theorem VerletConstraint.apply_frame {F : Type} [LinearOrderedField F] (sq : F → F)
    (c : VerletConstraint F) (h : Store F) (a : Nat) :
    (VerletConstraint.apply sq c h a).frame = (h a).frame := by
  unfold VerletConstraint.apply
  split_ifs <;> simp only [Store.setCurr_frame]

/-- The iterations of the second loop of `VerletSoftBody::apply` write `curr_position`
only. -/
theorem VerletSoftBody.foldl_frame {F : Type} [LinearOrderedField F] (sq : F → F)
    (vs : List Nat) (d : Flt F) (a : Nat) (l : List Nat) :
    ∀ h : Store F, ((l.foldl (VerletSoftBody.correctVertex sq vs d) h) a).frame = (h a).frame := by
  induction l with
  | nil => intro h; rfl
  | cons i l ih =>
    intro h
    rw [List.foldl_cons, ih]
    exact Store.setCurr_frame _ _ _ _

/-- Claim C13: `last_position` is never written by a constraint or a body correction.
For every store and every object, `VerletConstraint::apply` and `VerletSoftBody::apply`
leave `last_position`, `acceleration`, `colour`, `radius`, `hidden` and `fixed` as they
were.  Of the operations of `VerletObject`, `accelerate` and `updateColour` keep
`last_position`, while `updatePosition`, `setVelocity` and `addVelocity` assign it. -/
theorem last_position_frame (sq sin : ℝ → ℝ) (pi : ℝ) (c : VerletConstraint ℝ)
    (b : VerletSoftBody ℝ) (h : Store ℝ) (a : Nat) (o : VerletObject ℝ) (v : Vector2f ℝ)
    (dt : Flt ℝ) :
    ((VerletConstraint.apply sq c h a).last_position = (h a).last_position
      ∧ (VerletConstraint.apply sq c h a).acceleration = (h a).acceleration
      ∧ (VerletConstraint.apply sq c h a).colour = (h a).colour
      ∧ (VerletConstraint.apply sq c h a).radius = (h a).radius
      ∧ (VerletConstraint.apply sq c h a).hidden = (h a).hidden
      ∧ (VerletConstraint.apply sq c h a).fixed = (h a).fixed)
    ∧ ((VerletSoftBody.apply sq b h a).last_position = (h a).last_position
      ∧ (VerletSoftBody.apply sq b h a).acceleration = (h a).acceleration
      ∧ (VerletSoftBody.apply sq b h a).colour = (h a).colour
      ∧ (VerletSoftBody.apply sq b h a).radius = (h a).radius
      ∧ (VerletSoftBody.apply sq b h a).hidden = (h a).hidden
      ∧ (VerletSoftBody.apply sq b h a).fixed = (h a).fixed)
    ∧ (o.accelerate v).last_position = o.last_position
    ∧ (o.updateColour sq sin pi dt).last_position = o.last_position
    ∧ (o.updatePosition dt).last_position = o.curr_position
    ∧ (o.setVelocity v dt).last_position = o.curr_position - (v * dt : Vector2f ℝ)
    ∧ (o.addVelocity v dt).last_position = o.last_position - (v * dt : Vector2f ℝ) := by
  have h1 := VerletConstraint.apply_frame sq c h a
  have h2 : (VerletSoftBody.apply sq b h a).frame = (h a).frame :=
    VerletSoftBody.foldl_frame sq b.vertices _ a _ h
  simp only [VerletObject.frame, Prod.mk.injEq] at h1 h2
  exact ⟨h1, h2, rfl, rfl, rfl, rfl, rfl⟩

/-- Adding two floats to a third gives the same float in either order: a non-numeric
operand makes both sides non-numeric. -/
theorem Flt.add_add_swap (a b c : Flt ℝ) : a + b + c = a + c + b := by
  cases a <;> cases b <;> cases c <;> simp [add_right_comm]

/-- Claim C17: `accelerate` is additive and order-independent.  For every object and all
vectors `a` and `b`, `accelerate a` then `accelerate b` gives the same object as
`accelerate b` then `accelerate a`; its acceleration is `acceleration + a + b`, and
`curr_position` and `last_position` are unchanged; on numbers the acceleration is the sum
of the three vectors. -/
theorem VerletObject.accelerate_comm (o : VerletObject ℝ) (a b : Vector2f ℝ)
    (ox oy ax ay bx yb : ℝ) :
    (o.accelerate a).accelerate b = (o.accelerate b).accelerate a
    ∧ ((o.accelerate a).accelerate b).acceleration = o.acceleration + a + b
    ∧ ((o.accelerate a).accelerate b).curr_position = o.curr_position
    ∧ ((o.accelerate a).accelerate b).last_position = o.last_position
    ∧ ((({ o with acceleration := vec ox oy } : VerletObject ℝ).accelerate
        (vec ax ay)).accelerate (vec bx yb)).acceleration
      = vec (ox + ax + bx) (oy + ay + yb) := by
  refine ⟨?_, rfl, rfl, rfl, ?_⟩
  · simp only [VerletObject.accelerate, VerletObject.mk.injEq, Vector2f.ext_iff2,
      Vector2f.add_x, Vector2f.add_y, and_true, true_and]
    exact ⟨Flt.add_add_swap _ _ _, Flt.add_add_swap _ _ _⟩
  · simp only [VerletObject.accelerate, Vector2f.ext_iff2]
    simp

/-- Claim C19: on two free objects at different positions `apply` keeps the midpoint of
the pair, `p1' + p2' = p1 + p2`, and the new separation vector is the old one scaled by
`t / d`, `t` being the target distance and `d` the old separation: the pair is neither
translated nor rotated. -/
theorem VerletConstraint.apply_midpoint (c : VerletConstraint ℝ) (h : Store ℝ)
    (p1x p1y p2x p2y t d : ℝ)
    (hf1 : (h c.object_1).fixed = false) (hf2 : (h c.object_2).fixed = false)
    (hp1 : (h c.object_1).curr_position = vec p1x p1y)
    (hp2 : (h c.object_2).curr_position = vec p2x p2y)
    (ht : c.target_distance = num t)
    (hne : vec p1x p1y ≠ vec p2x p2y)
    (hd : d = Real.sqrt ((p1x - p2x) * (p1x - p2x) + (p1y - p2y) * (p1y - p2y))) :
    (VerletConstraint.apply Real.sqrt c h c.object_1).curr_position
        + (VerletConstraint.apply Real.sqrt c h c.object_2).curr_position
      = vec (p1x + p2x) (p1y + p2y)
    ∧ (VerletConstraint.apply Real.sqrt c h c.object_1).curr_position
        - (VerletConstraint.apply Real.sqrt c h c.object_2).curr_position
      = vec (t / d * (p1x - p2x)) (t / d * (p1y - p2y)) := by
  have hpos := sep_pos (Vector2f.vec_ne hne)
  rw [← hd] at hpos
  obtain ⟨h1, h2⟩ := VerletConstraint.apply_positions c h p1x p1y p2x p2y t d hp1 hp2 ht
    (Vector2f.vec_ne hne) hd (by simp [hf1]) (1 / 2) (1 / 2) (by simp [hf1, hf2])
  rw [h1, h2]
  have hd0 : d ≠ 0 := hpos.ne'
  simp only [Vector2f.ext_iff2, Vector2f.add_x, Vector2f.add_y, Vector2f.sub_x, Vector2f.sub_y,
    Vector2f.vec_x, Vector2f.vec_y, Flt.num_add_num, Flt.num_sub_num, Flt.num.injEq]
  refine ⟨⟨?_, ?_⟩, ?_, ?_⟩ <;> field_simp <;> ring

/-- Claim C19 on two free objects at `(0, 0)` and `(3, 4)` with target distance 10. -/
theorem VerletConstraint.apply_midpoint_witness :
    (VerletConstraint.apply Real.sqrt link (pairStore false false) 0).curr_position
        + (VerletConstraint.apply Real.sqrt link (pairStore false false) 1).curr_position
      = vec (0 + 3) (0 + 4)
    ∧ (VerletConstraint.apply Real.sqrt link (pairStore false false) 0).curr_position
        - (VerletConstraint.apply Real.sqrt link (pairStore false false) 1).curr_position
      = vec (10 / 5 * (0 - 3)) (10 / 5 * (0 - 4)) :=
  VerletConstraint.apply_midpoint link (pairStore false false) 0 0 3 4 10 5 rfl rfl rfl rfl rfl
    (by simp [Vector2f.vec_inj]) sqrt_three_four

end Verlet

/-! ## Theorems on `Simulation` -/

namespace Verlet

open Flt Vector2f

/-- The comparison `<` on two numbers. -/
theorem Flt.lt_num {F : Type} [LinearOrderedField F] (a b : F) :
    (Flt.lt (num a) (num b) = true) ↔ a < b := by
  simp [Flt.lt]

/-- Two truncating divisions of a positive width are at most the real quotient of its
half by the thread count. -/
theorem Simulation.tdiv_tdiv_le (w t : Int) (hw : 0 < w) (ht : 1 ≤ t) :
    (((w.tdiv t).tdiv 2 : Int) : ℝ) ≤ ((w.tdiv 2 : Int) : ℝ) / (t : ℝ) := by
  have ht0 : (0 : ℝ) < (t : ℝ) := by exact_mod_cast (by omega : (0 : Int) < t)
  have e1 : (w.tdiv t).tdiv 2 = w / t / 2 := by
    rw [Int.tdiv_eq_ediv hw.le (by omega), Int.tdiv_eq_ediv (Int.ediv_nonneg hw.le (by omega))
      (by norm_num)]
  have e2 : w.tdiv 2 = w / 2 := Int.tdiv_eq_ediv hw.le (by norm_num)
  have a1 : w / t / 2 * 2 ≤ w / t := Int.ediv_mul_le _ (by norm_num)
  have a2 : w / t * t ≤ w := Int.ediv_mul_le _ (by omega)
  have a3 : w / t / 2 * 2 * t ≤ w / t * t := mul_le_mul_of_nonneg_right a1 (by omega)
  have a4 : w / t / 2 * t ≤ w / 2 :=
    Int.le_ediv_of_mul_le (by norm_num) (by linarith)
  rw [e1, e2, le_div_iff₀ ht0]
  exact_mod_cast a4

/-- The value of `cell_size` on a positive width, at least one thread and a positive
numeric radius. -/
theorem Simulation.cell_size_eval (w t cr : Int) (mr : ℝ) (ht : 1 ≤ t) (hmr : 0 < mr) :
    Simulation.cell_size w t (num mr) cr
      = if cr = 2 ∧ ((w.tdiv 2 : Int) : ℝ) / mr / (t : ℝ) < 2 then
          num (((w.tdiv t).tdiv 2 : Int) : ℝ)
        else num (mr * 2) := by
  have ht0 : (t : ℝ) ≠ 0 := by
    have : (0 : ℝ) < (t : ℝ) := by exact_mod_cast (by omega : (0 : Int) < t)
    exact this.ne'
  simp only [Simulation.cell_size, Flt.num_div_of_ne _ hmr.ne', Flt.num_div_of_ne _ ht0,
    Flt.lt_num, Flt.num_mul_num]

/-- Claim C14, as the code has it: for a positive window width, at least one thread and a
positive maximal radius, `cell_size` is `2 * max_radius` unless `collision_resolver` is 2
and `window_width / 2 / max_radius / thread_count < 2`; in that case it is the integer
`window_width / thread_count / 2`, which is less than `2 * max_radius`. -/
theorem Simulation.cell_size_spec (w t cr : Int) (mr : ℝ) (hw : 0 < w) (ht : 1 ≤ t)
    (hmr : 0 < mr) :
    (¬(cr = 2 ∧ ((w.tdiv 2 : Int) : ℝ) / mr / (t : ℝ) < 2) →
      Simulation.cell_size w t (num mr) cr = num (2 * mr))
    ∧ ((cr = 2 ∧ ((w.tdiv 2 : Int) : ℝ) / mr / (t : ℝ) < 2) →
      Simulation.cell_size w t (num mr) cr = num (((w.tdiv t).tdiv 2 : Int) : ℝ)
      ∧ (((w.tdiv t).tdiv 2 : Int) : ℝ) < 2 * mr) := by
  rw [Simulation.cell_size_eval w t cr mr ht hmr]
  constructor
  · intro hc
    rw [if_neg hc, mul_comm]
  · intro hc
    rw [if_pos hc]
    refine ⟨rfl, ?_⟩
    have ht0 : (0 : ℝ) < (t : ℝ) := by exact_mod_cast (by omega : (0 : Int) < t)
    have h1 := Simulation.tdiv_tdiv_le w t hw ht
    have h2 : ((w.tdiv 2 : Int) : ℝ) / (t : ℝ) < 2 * mr := by
      have := hc.2
      rw [div_div, div_lt_iff₀ (mul_pos hmr ht0)] at this
      rw [div_lt_iff₀ ht0]
      linarith
    linarith

/-- Claim C14, as the code has it, on a window 100 wide, one thread and maximal radius 30:
with resolver 0 the cell size is 60, with resolver 2 it is 50. -/
theorem Simulation.cell_size_spec_witness :
    Simulation.cell_size 100 1 (num (30 : ℝ)) 0 = num (2 * 30)
    ∧ Simulation.cell_size 100 1 (num (30 : ℝ)) 2 = num ((((100 : Int).tdiv 1).tdiv 2 : Int) : ℝ)
    ∧ ((((100 : Int).tdiv 1).tdiv 2 : Int) : ℝ) < 2 * 30 :=
  ⟨(Simulation.cell_size_spec 100 1 0 30 (by norm_num) (by norm_num) (by norm_num)).1
      (by norm_num),
    (Simulation.cell_size_spec 100 1 2 30 (by norm_num) (by norm_num) (by norm_num)).2
      ⟨rfl, by rw [show Int.tdiv 100 2 = 50 from rfl]; norm_num⟩⟩

/-- Claim C14 fails as stated: a window 100 wide, one thread, maximal radius 30 and
`collision_resolver = 2` give `cell_size = 50`, less than `2 * max_radius = 60`. -/
theorem Simulation.cell_size_counterexample :
    (0 : Int) < 100 ∧ (1 : Int) ≤ 1 ∧ (0 : ℝ) < 30
    ∧ Simulation.cell_size 100 1 (num (30 : ℝ)) 2 = num 50
    ∧ ¬((2 : ℝ) * 30 ≤ 50) := by
  refine ⟨by norm_num, by norm_num, by norm_num, ?_, by norm_num⟩
  rw [Simulation.cell_size_eval 100 1 2 30 (by norm_num) (by norm_num),
    show Int.tdiv 100 1 = 100 from rfl, show Int.tdiv 100 2 = 50 from rfl]
  norm_num

end Verlet

/-! ## Theorems on the correction loop -/

namespace Verlet

open Flt Vector2f VerletSoftBody

/-- The store before iteration `k + 1` is the store before iteration `k` after the
iteration for vertex `k`. -/
theorem VerletSoftBody.stateBefore_succ {F : Type} [LinearOrderedField F] (sq : F → F)
    (b : VerletSoftBody F) (h : Store F) (k : Nat) :
    stateBefore sq b h (k + 1)
      = correctVertex sq b.vertices (delta b h) (stateBefore sq b h k) k := by
  simp only [stateBefore, List.range_succ, List.foldl_append, List.foldl_cons, List.foldl_nil]

/-- In a body of different objects an iteration after the one for vertex `j` leaves vertex
`j` where its own iteration put it. -/
theorem VerletSoftBody.stateBefore_later {F : Type} [LinearOrderedField F] (sq : F → F)
    (b : VerletSoftBody F) (h : Store F) (hnd : b.vertices.Nodup) (j : Nat)
    (hj : j < b.vertices.length) (m : Nat) :
    j + 1 ≤ m → m ≤ b.vertices.length →
      stateBefore sq b h m (b.vertices.getD j 0)
        = stateBefore sq b h (j + 1) (b.vertices.getD j 0) := by
  induction m with
  | zero => intro h1; omega
  | succ m ih =>
    intro h1 h2
    by_cases hm : j + 1 = m + 1
    · rw [hm]
    · rw [VerletSoftBody.stateBefore_succ, VerletSoftBody.correctVertex_other _ _ _ _ _ _
        (getD_ne_of_nodup b.vertices hnd hj (by omega) (by omega)), ih (by omega) (by omega)]

/-- In a body of different objects the iterations before the one for vertex `j` leave
vertex `j` where it was at the start of the call. -/
theorem VerletSoftBody.stateBefore_earlier {F : Type} [LinearOrderedField F] (sq : F → F)
    (b : VerletSoftBody F) (h : Store F) (hnd : b.vertices.Nodup) (j : Nat)
    (hj : j < b.vertices.length) (m : Nat) :
    m ≤ j → stateBefore sq b h m (b.vertices.getD j 0) = h (b.vertices.getD j 0) := by
  induction m with
  | zero => intro _; rfl
  | succ m ih =>
    intro h1
    rw [VerletSoftBody.stateBefore_succ, VerletSoftBody.correctVertex_other _ _ _ _ _ _
      (getD_ne_of_nodup b.vertices hnd hj (by omega) (by omega)), ih (by omega)]

/-- One iteration of the loop, for a vertex at a numeric position whose neighbours are at
different numeric positions: the vertex is moved by a vector of length `|0.01 * d|`. -/
theorem VerletSoftBody.correctVertex_length (vs : List Nat) (g : Store ℝ) (i : Nat)
    (x y xp yp xn yn d : ℝ)
    (hc : (g (vs.getD i 0)).curr_position = vec x y)
    (hp : (g (vs.getD (prev_idx vs.length i) 0)).curr_position = vec xp yp)
    (hx : (g (vs.getD (next_idx vs.length i) 0)).curr_position = vec xn yn)
    (hne : ¬(xn = xp ∧ yn = yp)) :
    ∃ x1 y1 : ℝ,
      (correctVertex Real.sqrt vs (num d) g i (vs.getD i 0)).curr_position = vec x1 y1
      ∧ Real.sqrt ((x1 - x) * (x1 - x) + (y1 - y) * (y1 - y)) = |1 / 100 * d| := by
  have hD := sep_pos hne
  have hn := VerletSoftBody.normal_eval vs g i xp yp xn yn _ hp hx rfl hD
  refine ⟨_, _, VerletSoftBody.correctVertex_self vs g i x y _ _ d hc hn, ?_⟩
  have e := step_length (xn - xp) (yn - yp) _ (1 / 100 * d) rfl hD
  rw [← e]
  congr 1
  ring

/-- When all positions are numeric at the start of the call and the two neighbours of every
vertex are at different positions when the vertex is processed, all positions stay
numeric during the loop. -/
theorem VerletSoftBody.stateBefore_numeric (b : VerletSoftBody ℝ) (h : Store ℝ) (d : ℝ)
    (hdel : delta b h = num d)
    (hpos : ∀ j, j < b.vertices.length →
      ∃ x y : ℝ, (h (b.vertices.getD j 0)).curr_position = vec x y)
    (hdiff : ∀ i, i < b.vertices.length →
      (stateBefore Real.sqrt b h i
          (b.vertices.getD (prev_idx b.vertices.length i) 0)).curr_position
        ≠ (stateBefore Real.sqrt b h i
          (b.vertices.getD (next_idx b.vertices.length i) 0)).curr_position) (k : Nat) :
    k ≤ b.vertices.length → ∀ j, j < b.vertices.length →
      ∃ x y : ℝ, (stateBefore Real.sqrt b h k (b.vertices.getD j 0)).curr_position = vec x y := by
  induction k with
  | zero => intro _ j hj; exact hpos j hj
  | succ k ih =>
    intro hk j hj
    have hkn : k < b.vertices.length := by omega
    rw [VerletSoftBody.stateBefore_succ, hdel]
    by_cases e : b.vertices.getD j 0 = b.vertices.getD k 0
    · obtain ⟨x, y, hc⟩ := ih (by omega) k hkn
      obtain ⟨xp, yp, hp⟩ := ih (by omega) _ (VerletSoftBody.prev_idx_lt hkn)
      obtain ⟨xn, yn, hx⟩ := ih (by omega) _ (VerletSoftBody.next_idx_lt hkn)
      have hne : ¬(xn = xp ∧ yn = yp) := by
        rintro ⟨rfl, rfl⟩
        exact hdiff k hkn (by rw [hp, hx])
      obtain ⟨x1, y1, h1, -⟩ := VerletSoftBody.correctVertex_length b.vertices _ k x y xp yp
        xn yn d hc hp hx hne
      rw [e]
      exact ⟨x1, y1, h1⟩
    · rw [VerletSoftBody.correctVertex_other _ _ _ _ _ _ e]
      exact ih (by omega) j hj

/-- The iteration for vertex `i` moves it by a vector of length `|0.01 * delta|`, when all
positions are numeric at the start of the call and the two neighbours of every vertex are
at different positions when the vertex is processed. -/
theorem VerletSoftBody.stateBefore_step (b : VerletSoftBody ℝ) (h : Store ℝ) (d : ℝ)
    (hdel : delta b h = num d)
    (hpos : ∀ j, j < b.vertices.length →
      ∃ x y : ℝ, (h (b.vertices.getD j 0)).curr_position = vec x y)
    (hdiff : ∀ i, i < b.vertices.length →
      (stateBefore Real.sqrt b h i
          (b.vertices.getD (prev_idx b.vertices.length i) 0)).curr_position
        ≠ (stateBefore Real.sqrt b h i
          (b.vertices.getD (next_idx b.vertices.length i) 0)).curr_position)
    (i : Nat) (hi : i < b.vertices.length) :
    ∃ x y x1 y1 : ℝ,
      (stateBefore Real.sqrt b h i (b.vertices.getD i 0)).curr_position = vec x y
      ∧ (stateBefore Real.sqrt b h (i + 1) (b.vertices.getD i 0)).curr_position = vec x1 y1
      ∧ Real.sqrt ((x1 - x) * (x1 - x) + (y1 - y) * (y1 - y)) = |1 / 100 * d| := by
  have hnum := VerletSoftBody.stateBefore_numeric b h d hdel hpos hdiff i (by omega)
  obtain ⟨x, y, hc⟩ := hnum i hi
  obtain ⟨xp, yp, hp⟩ := hnum _ (VerletSoftBody.prev_idx_lt hi)
  obtain ⟨xn, yn, hx⟩ := hnum _ (VerletSoftBody.next_idx_lt hi)
  have hne : ¬(xn = xp ∧ yn = yp) := by
    rintro ⟨rfl, rfl⟩
    exact hdiff i hi (by rw [hp, hx])
  obtain ⟨x1, y1, h1, h2⟩ := VerletSoftBody.correctVertex_length b.vertices _ i x y xp yp
    xn yn d hc hp hx hne
  refine ⟨x, y, x1, y1, hc, ?_, h2⟩
  rw [VerletSoftBody.stateBefore_succ, hdel]
  exact h1

/-- The length of a correction step in terms of the area error. -/
theorem step_abs (A a : ℝ) (n : Nat) (hn : 0 < n) :
    |1 / 100 * ((A - a) / ((n : ℝ) * 2))| = 1 / 100 * |A - a| / (2 * n) := by
  have hn0 : (0 : ℝ) < n := by exact_mod_cast hn
  rw [abs_mul, abs_of_pos (by positivity : (0 : ℝ) < 1 / 100), abs_div,
    abs_of_pos (by positivity : (0 : ℝ) < (n : ℝ) * 2), mul_comm (n : ℝ) 2]
  ring

/-- Claim C15: in a body of `n ≥ 3` vertices at numeric positions, with a numeric desired
area, in which the two neighbours of every vertex are at different positions when the
vertex is processed, the iteration for every vertex moves it by a vector of length exactly
`0.01 * |desired_area - current_area| / (2 * n)`, `current_area` being the area of the
positions at the start of the call; when the vertices are different objects this is the
displacement of every vertex from the start to the end of the call. -/
theorem VerletSoftBody.apply_displacement (b : VerletSoftBody ℝ) (h : Store ℝ) (A a : ℝ)
    (hn : 3 ≤ b.vertices.length)
    (hpos : ∀ j, j < b.vertices.length →
      ∃ x y : ℝ, (h (b.vertices.getD j 0)).curr_position = vec x y)
    (hA : b.desired_area = num A) (ha : current_area b.vertices h = num a)
    (hdiff : ∀ i, i < b.vertices.length →
      (stateBefore Real.sqrt b h i
          (b.vertices.getD (prev_idx b.vertices.length i) 0)).curr_position
        ≠ (stateBefore Real.sqrt b h i
          (b.vertices.getD (next_idx b.vertices.length i) 0)).curr_position) :
    (∀ i, i < b.vertices.length → ∃ x y x1 y1 : ℝ,
      (stateBefore Real.sqrt b h i (b.vertices.getD i 0)).curr_position = vec x y
      ∧ (stateBefore Real.sqrt b h (i + 1) (b.vertices.getD i 0)).curr_position = vec x1 y1
      ∧ Real.sqrt ((x1 - x) * (x1 - x) + (y1 - y) * (y1 - y))
          = 1 / 100 * |A - a| / (2 * b.vertices.length))
    ∧ (b.vertices.Nodup → ∀ i, i < b.vertices.length → ∃ x y x1 y1 : ℝ,
      (h (b.vertices.getD i 0)).curr_position = vec x y
      ∧ (apply Real.sqrt b h (b.vertices.getD i 0)).curr_position = vec x1 y1
      ∧ Real.sqrt ((x1 - x) * (x1 - x) + (y1 - y) * (y1 - y))
          = 1 / 100 * |A - a| / (2 * b.vertices.length)) := by
  have hdel : delta b h = num ((A - a) / ((b.vertices.length : ℝ) * 2)) := by
    have hne : ((b.vertices.length : ℝ) * 2) ≠ 0 := by
      have : (0 : ℝ) < b.vertices.length := by exact_mod_cast (by omega : 0 < b.vertices.length)
      positivity
    simp only [delta, hA, ha, Flt.num_sub_num, Flt.num_mul_num, Flt.num_div_of_ne _ hne]
  have hstep := VerletSoftBody.stateBefore_step b h _ hdel hpos hdiff
  rw [step_abs A a _ (by omega)] at hstep
  refine ⟨hstep, ?_⟩
  intro hnd i hi
  obtain ⟨x, y, x1, y1, h1, h2, h3⟩ := hstep i hi
  refine ⟨x, y, x1, y1, ?_, ?_, h3⟩
  · rw [← VerletSoftBody.stateBefore_earlier Real.sqrt b h hnd i hi i le_rfl]
    exact h1
  · have : apply Real.sqrt b h = stateBefore Real.sqrt b h b.vertices.length := rfl
    rw [this, VerletSoftBody.stateBefore_later Real.sqrt b h hnd i hi _ (by omega) le_rfl]
    exact h2

/-- In a body of different objects whose neighbour separations are more than two correction
steps at the start of the call, the two neighbours of every vertex are at different
positions when the vertex is processed. -/
theorem VerletSoftBody.neighbours_ne (b : VerletSoftBody ℝ) (h : Store ℝ) (X Y : Nat → ℝ)
    (A d hi : ℝ) (hn : 2 ≤ b.vertices.length) (hnd : b.vertices.Nodup)
    (hpos : ∀ i, i < b.vertices.length →
      (h (b.vertices.getD i 0)).curr_position = vec (X i) (Y i))
    (hA : b.desired_area = num A)
    (hd : d = (A - |shoelaceSum b.vertices.length X Y| / 2) / (b.vertices.length * 2))
    (hsep : ∀ i, i < b.vertices.length →
      2 * |1 / 100 * d| < Real.sqrt
        ((X (next_idx b.vertices.length i) - X (prev_idx b.vertices.length i))
          * (X (next_idx b.vertices.length i) - X (prev_idx b.vertices.length i))
        + (Y (next_idx b.vertices.length i) - Y (prev_idx b.vertices.length i))
          * (Y (next_idx b.vertices.length i) - Y (prev_idx b.vertices.length i)))
      ∧ 0 + 2 * |1 / 100 * d| ≤ Real.sqrt
        ((X (next_idx b.vertices.length i) - X (prev_idx b.vertices.length i))
          * (X (next_idx b.vertices.length i) - X (prev_idx b.vertices.length i))
        + (Y (next_idx b.vertices.length i) - Y (prev_idx b.vertices.length i))
          * (Y (next_idx b.vertices.length i) - Y (prev_idx b.vertices.length i)))
      ∧ Real.sqrt
        ((X (next_idx b.vertices.length i) - X (prev_idx b.vertices.length i))
          * (X (next_idx b.vertices.length i) - X (prev_idx b.vertices.length i))
        + (Y (next_idx b.vertices.length i) - Y (prev_idx b.vertices.length i))
          * (Y (next_idx b.vertices.length i) - Y (prev_idx b.vertices.length i)))
          + 2 * |1 / 100 * d| ≤ hi) :
    ∀ i, i < b.vertices.length →
      (stateBefore Real.sqrt b h i
          (b.vertices.getD (prev_idx b.vertices.length i) 0)).curr_position
        ≠ (stateBefore Real.sqrt b h i
          (b.vertices.getD (next_idx b.vertices.length i) 0)).curr_position := by
  intro i hi2
  have hS := VerletSoftBody.shoelace_eval b.vertices h X Y hpos
  have hdel := VerletSoftBody.delta_eval b h A _ hA hS (by omega)
  rw [← hd] at hdel
  obtain ⟨Xk, Yk, L, h1, -, h3, -, -, -⟩ :=
    VerletSoftBody.loop_invariant b.vertices h X Y d 0 hi hn hnd hpos hsep i (by omega)
  have hst : stateBefore Real.sqrt b h i
      = (List.range i).foldl (correctVertex Real.sqrt b.vertices (num d)) h := by
    simp only [stateBefore, hdel]
  rw [hst, h1 _ (VerletSoftBody.prev_idx_lt hi2), h1 _ (VerletSoftBody.next_idx_lt hi2)]
  intro he
  obtain ⟨e1, e2⟩ := (Vector2f.vec_inj _ _ _ _).mp he
  have hpert := sep_perturb (Xk (next_idx b.vertices.length i))
    (Yk (next_idx b.vertices.length i)) (Xk (prev_idx b.vertices.length i))
    (Yk (prev_idx b.vertices.length i)) (X (next_idx b.vertices.length i))
    (Y (next_idx b.vertices.length i)) (X (prev_idx b.vertices.length i))
    (Y (prev_idx b.vertices.length i)) |1 / 100 * d| (h3 _) (h3 _)
  rw [e1, e2, sub_self, sub_self, mul_zero, add_zero, Real.sqrt_zero, abs_le] at hpert
  linarith [(hsep i hi2).1, hpert.1]

/-- Claim C15 on the square of circumradius 1 with a negative shoelace sum and desired
area 10: the corner at handle 2 moves by `0.01 * |10 - 2| / (2 * 4)`. -/
theorem VerletSoftBody.apply_displacement_witness :
    ∃ x y x1 y1 : ℝ,
      ((squareStore 1 (-1) : Store ℝ) ((squareBody (10 : ℝ)).vertices.getD 2 0)).curr_position
        = vec x y
      ∧ (apply Real.sqrt (squareBody 10) (squareStore 1 (-1))
          ((squareBody (10 : ℝ)).vertices.getD 2 0)).curr_position = vec x1 y1
      ∧ Real.sqrt ((x1 - x) * (x1 - x) + (y1 - y) * (y1 - y))
          = 1 / 100 * |10 - 2| / (2 * (squareBody (10 : ℝ)).vertices.length) :=
  (VerletSoftBody.apply_displacement (squareBody 10) (squareStore 1 (-1)) 10 2 (by decide)
    (fun j hj => ⟨_, _, squareStore_pos 1 (-1) j hj⟩) rfl
    (by
      have := VerletSoftBody.current_area_eval _ _ _ (squareStore_shoelace 1 (-1))
      rw [show (squareBody (10 : ℝ)).vertices = [0, 1, 2, 3] from rfl, this]
      norm_num [abs_of_pos])
    (VerletSoftBody.neighbours_ne (squareBody 10) (squareStore 1 (-1))
      (fun i => ([1, 0, -1, 0] : List ℝ).getD i 0)
      (fun i => ([0, -1, 0, - -1] : List ℝ).getD i 0) 10 1 3 (by decide) (by decide)
      (squareStore_pos 1 (-1)) rfl
      (by
        have hlen : (((squareBody 10 : VerletSoftBody ℝ).vertices.length : Nat) : ℝ) = 4 := by
          simp [squareBody]
        have := squareStore_sum 1 (-1)
        simp only [squareBody] at this hlen ⊢
        rw [this, hlen]
        norm_num [abs_of_pos])
      (by
        intro i hi
        have := squareStore_sep 1 (-1) (by norm_num) (by norm_num) i hi
        simp only [squareBody] at this ⊢
        rw [this]
        norm_num [abs_of_pos]))).2 (by decide) 2 (by decide)

end Verlet

/-! ## Sequential and simultaneous correction -/

namespace Verlet

open Flt Vector2f VerletSoftBody

/-- The positions of the three objects of `triangleStore`. -/
theorem triangleStore_pos : ∀ i, i < (triangleBody : VerletSoftBody ℝ).vertices.length →
    ((triangleStore : Store ℝ) ((triangleBody : VerletSoftBody ℝ).vertices.getD i 0)).curr_position
      = vec (([0, 4, 0] : List ℝ).getD i 0) (([0, 0, 3] : List ℝ).getD i 0) := by
  intro i hi
  simp only [triangleBody, List.length_cons, List.length_nil] at hi
  interval_cases i <;> rfl

/-- The shoelace sum of the triangle is 12. -/
theorem triangleStore_shoelace :
    shoelace (triangleBody : VerletSoftBody ℝ).vertices (triangleStore : Store ℝ) = num 12 := by
  rw [VerletSoftBody.shoelace_eval _ _ _ _ triangleStore_pos]
  simp [shoelaceSum, Finset.sum_range_succ, triangleBody]
  norm_num

/-- The local `delta` of `apply` on the triangle is 500. -/
theorem triangleStore_delta :
    delta (triangleBody : VerletSoftBody ℝ) (triangleStore : Store ℝ) = num 500 := by
  rw [VerletSoftBody.delta_eval _ _ 3006 12 rfl triangleStore_shoelace (by decide)]
  simp [triangleBody]
  norm_num [abs_of_pos]

/-- The normal of vertex `i` is computed from the positions its two neighbours have in the
store the iteration reads. -/
theorem VerletSoftBody.normal_eq_unitNormal {F : Type} [LinearOrderedField F] (sq : F → F)
    (vs : List Nat) (g : Store F) (i : Nat) :
    normal sq vs g i
      = unitNormal sq (g (vs.getD (prev_idx vs.length i) 0)).curr_position
          (g (vs.getD (next_idx vs.length i) 0)).curr_position := rfl

/-- The position `apply` leaves vertex `i` at, in a body of two or more different objects:
the start position plus `0.01 * normal * delta`, the normal being computed from the
corrected position of vertex `i - 1` (the start position of the last vertex for `i = 0`)
and the start position of vertex `i + 1` (the corrected position of vertex 0 for the last
vertex). -/
theorem VerletSoftBody.apply_vertex {F : Type} [LinearOrderedField F] (sq : F → F)
    (b : VerletSoftBody F) (h : Store F) (hnd : b.vertices.Nodup)
    (hn : 2 ≤ b.vertices.length) (i : Nat) (hi : i < b.vertices.length) :
    (apply sq b h (b.vertices.getD i 0)).curr_position
      = (h (b.vertices.getD i 0)).curr_position
        + (((Flt.num (1 / 100) : Flt F)
            * unitNormal sq
                (if i = 0 then (h (b.vertices.getD (b.vertices.length - 1) 0)).curr_position
                  else (apply sq b h (b.vertices.getD (i - 1) 0)).curr_position)
                (if i = b.vertices.length - 1 then
                    (apply sq b h (b.vertices.getD 0 0)).curr_position
                  else (h (b.vertices.getD (i + 1) 0)).curr_position) : Vector2f F)
          * delta b h : Vector2f F) := by
  have happ : apply sq b h = stateBefore sq b h b.vertices.length := rfl
  have hP : (stateBefore sq b h i
        (b.vertices.getD (prev_idx b.vertices.length i) 0)).curr_position
      = if i = 0 then (h (b.vertices.getD (b.vertices.length - 1) 0)).curr_position
          else (apply sq b h (b.vertices.getD (i - 1) 0)).curr_position := by
    unfold prev_idx
    split_ifs with h0
    · subst h0; rfl
    · rw [happ, VerletSoftBody.stateBefore_later sq b h hnd (i - 1) (by omega)
          b.vertices.length (by omega) le_rfl,
        VerletSoftBody.stateBefore_later sq b h hnd (i - 1) (by omega) i (by omega) (by omega)]
  have hN : (stateBefore sq b h i
        (b.vertices.getD (next_idx b.vertices.length i) 0)).curr_position
      = if i = b.vertices.length - 1 then (apply sq b h (b.vertices.getD 0 0)).curr_position
          else (h (b.vertices.getD (i + 1) 0)).curr_position := by
    unfold next_idx
    split_ifs with h0
    · rw [happ, VerletSoftBody.stateBefore_later sq b h hnd 0 (by omega)
          b.vertices.length (by omega) le_rfl,
        VerletSoftBody.stateBefore_later sq b h hnd 0 (by omega) i (by omega) (by omega)]
    · rw [VerletSoftBody.stateBefore_earlier sq b h hnd (i + 1) (by omega) i (by omega)]
  rw [← hP, ← hN, ← VerletSoftBody.normal_eq_unitNormal, happ,
    VerletSoftBody.stateBefore_later sq b h hnd i hi b.vertices.length (by omega) le_rfl,
    VerletSoftBody.stateBefore_succ]
  simp only [correctVertex, Store.setCurr_same]
  rw [VerletSoftBody.stateBefore_earlier sq b h hnd i hi i le_rfl]

/-- The position the simultaneous update leaves vertex `i` at, in a body of different
objects: the start position plus `0.01 * normal * delta`, the normal being computed from
the start positions of both neighbours. -/
theorem VerletSoftBody.applySimultaneous_vertex {F : Type} [LinearOrderedField F]
    (sq : F → F) (b : VerletSoftBody F) (h : Store F) (hnd : b.vertices.Nodup)
    (i : Nat) (hi : i < b.vertices.length) :
    (applySimultaneous sq b h (b.vertices.getD i 0)).curr_position
      = (h (b.vertices.getD i 0)).curr_position
        + (((Flt.num (1 / 100) : Flt F)
            * unitNormal sq
                (h (b.vertices.getD (prev_idx b.vertices.length i) 0)).curr_position
                (h (b.vertices.getD (next_idx b.vertices.length i) 0)).curr_position
              : Vector2f F)
          * delta b h : Vector2f F) := by
  have key : ∀ m, m ≤ b.vertices.length →
      ((List.range m).foldl
        (fun acc j => acc.setCurr (b.vertices.getD j 0)
          (fun p => p + (((Flt.num (1 / 100) : Flt F) * normal sq b.vertices h j : Vector2f F)
            * delta b h : Vector2f F)))
        h (b.vertices.getD i 0)).curr_position
      = if i < m then
          (h (b.vertices.getD i 0)).curr_position
            + (((Flt.num (1 / 100) : Flt F) * normal sq b.vertices h i : Vector2f F)
              * delta b h : Vector2f F)
        else (h (b.vertices.getD i 0)).curr_position := by
    intro m
    induction m with
    | zero => intro _; simp
    | succ m ih =>
      intro hm
      rw [List.range_succ, List.foldl_append]
      simp only [List.foldl_cons, List.foldl_nil]
      by_cases him : i = m
      · subst him
        have := ih (by omega)
        rw [if_neg (by omega)] at this
        rw [Store.setCurr_same, if_pos (by omega)]
        simp only [this]
      · rw [Store.setCurr_ne _ _ (getD_ne_of_nodup b.vertices hnd hi (by omega) him),
          ih (by omega)]
        by_cases h1 : i < m
        · rw [if_pos h1, if_pos (by omega)]
        · rw [if_neg h1, if_neg (by omega)]
  have := key b.vertices.length le_rfl
  rw [if_pos hi] at this
  exact this

/-- The sequential loop on the triangle: vertex 0 goes to `(3, 4)`, and vertex 1, whose
normal is computed from that new position of vertex 0, leaves the horizontal axis. -/
theorem triangle_sequential :
    (apply Real.sqrt triangleBody (triangleStore : Store ℝ) 0).curr_position = vec 3 4
    ∧ (apply Real.sqrt triangleBody (triangleStore : Store ℝ) 1).curr_position
        = vec (4 + 5 / Real.sqrt 10) (-(15 / Real.sqrt 10)) := by
  have hnd : (triangleBody : VerletSoftBody ℝ).vertices.Nodup := by decide
  have h5 : (5 : ℝ) = Real.sqrt ((4 - 0) * (4 - 0) + (0 - 3) * (0 - 3)) := by
    have e : ((4 : ℝ) - 0) * (4 - 0) + (0 - 3) * (0 - 3) = 5 * 5 := by norm_num
    rw [e, Real.sqrt_mul_self (by norm_num)]
  -- vertex 0 goes to (3, 4)
  have hn0 := VerletSoftBody.normal_eval (triangleBody : VerletSoftBody ℝ).vertices
    (triangleStore : Store ℝ) 0 0 3 4 0 5 rfl rfl h5 (by norm_num)
  have hv0 := VerletSoftBody.correctVertex_self (triangleBody : VerletSoftBody ℝ).vertices
    (triangleStore : Store ℝ) 0 0 0 _ _ 500 rfl hn0
  have hs1 : stateBefore Real.sqrt triangleBody (triangleStore : Store ℝ) 1
      = correctVertex Real.sqrt (triangleBody : VerletSoftBody ℝ).vertices (num 500)
          triangleStore 0 := by
    rw [VerletSoftBody.stateBefore_succ, triangleStore_delta]; rfl
  have hp0 : (stateBefore Real.sqrt triangleBody (triangleStore : Store ℝ) 1 0).curr_position
      = vec 3 4 := by
    rw [hs1]
    have : (triangleBody : VerletSoftBody ℝ).vertices.getD 0 0 = 0 := rfl
    rw [this] at hv0
    rw [hv0, Vector2f.vec_inj]
    constructor <;> norm_num
  have hp1 : (stateBefore Real.sqrt triangleBody (triangleStore : Store ℝ) 1 1).curr_position
      = vec 4 0 := by
    rw [hs1, VerletSoftBody.correctVertex_other _ _ _ _ _ _ (by decide)]; rfl
  have hp2 : (stateBefore Real.sqrt triangleBody (triangleStore : Store ℝ) 1 2).curr_position
      = vec 0 3 := by
    rw [hs1, VerletSoftBody.correctVertex_other _ _ _ _ _ _ (by decide)]; rfl
  -- vertex 1 is corrected with the new position of vertex 0
  have hD : 0 < Real.sqrt 10 := Real.sqrt_pos.mpr (by norm_num)
  have hD10 : Real.sqrt 10 = Real.sqrt (((0 : ℝ) - 3) * (0 - 3) + (3 - 4) * (3 - 4)) := by
    congr 1; norm_num
  have hn1 := VerletSoftBody.normal_eval (triangleBody : VerletSoftBody ℝ).vertices
    (stateBefore Real.sqrt triangleBody (triangleStore : Store ℝ) 1) 1 3 4 0 3 _ hp0 hp2
    hD10 hD
  have hv1 := VerletSoftBody.correctVertex_self (triangleBody : VerletSoftBody ℝ).vertices
    (stateBefore Real.sqrt triangleBody (triangleStore : Store ℝ) 1) 1 4 0 _ _ 500 hp1 hn1
  have happ0 : apply Real.sqrt triangleBody (triangleStore : Store ℝ) 0
      = stateBefore Real.sqrt triangleBody (triangleStore : Store ℝ) 1 0 :=
    VerletSoftBody.stateBefore_later Real.sqrt triangleBody (triangleStore : Store ℝ)
      hnd 0 (by decide) 3 (by decide) (by decide)
  have happ : apply Real.sqrt triangleBody (triangleStore : Store ℝ) 1
      = correctVertex Real.sqrt (triangleBody : VerletSoftBody ℝ).vertices (num 500)
          (stateBefore Real.sqrt triangleBody (triangleStore : Store ℝ) 1) 1 1 := by
    have := VerletSoftBody.stateBefore_later Real.sqrt triangleBody (triangleStore : Store ℝ)
      hnd 1 (by decide) 3 (by decide) (by decide)
    rw [VerletSoftBody.stateBefore_succ Real.sqrt triangleBody triangleStore 1,
      triangleStore_delta] at this
    exact this
  refine ⟨by rw [happ0]; exact hp0, ?_⟩
  rw [happ]
  refine hv1.trans ?_
  rw [Vector2f.vec_inj]
  constructor
  · field_simp; ring
  · field_simp; ring

/-- The simultaneous update leaves vertex 1 of the triangle on the horizontal axis. -/
theorem triangle_simultaneous :
    (applySimultaneous Real.sqrt triangleBody (triangleStore : Store ℝ) 1).curr_position
      = vec (-1) 0 := by
  have h3 : (3 : ℝ) = Real.sqrt ((0 - 0) * (0 - 0) + (3 - 0) * (3 - 0)) := by
    have e : ((0 : ℝ) - 0) * (0 - 0) + (3 - 0) * (3 - 0) = 3 * 3 := by norm_num
    rw [e, Real.sqrt_mul_self (by norm_num)]
  have hn1 := VerletSoftBody.normal_eval (triangleBody : VerletSoftBody ℝ).vertices
    (triangleStore : Store ℝ) 1 0 0 0 3 3 rfl rfl h3 (by norm_num)
  have h1 : ((triangleStore : Store ℝ) 1).curr_position = vec 4 0 := rfl
  have e : applySimultaneous Real.sqrt triangleBody (triangleStore : Store ℝ) 1
      = { (triangleStore : Store ℝ) 1 with
          curr_position := ((triangleStore : Store ℝ) 1).curr_position
            + (((Flt.num (1 / 100) : Flt ℝ)
                * normal Real.sqrt (triangleBody : VerletSoftBody ℝ).vertices triangleStore 1
                  : Vector2f ℝ)
              * (delta (triangleBody : VerletSoftBody ℝ) triangleStore : Flt ℝ) : Vector2f ℝ) } := by
    simp only [applySimultaneous, triangleBody, List.length_cons, List.length_nil,
      List.range_succ, List.range_zero, List.nil_append, List.cons_append, List.foldl_cons,
      List.foldl_nil, List.getD_cons_zero, List.getD_cons_succ]
    rw [Store.setCurr_ne _ _ (by decide : (1 : Nat) ≠ 2), Store.setCurr_same,
      Store.setCurr_ne _ _ (by decide : (1 : Nat) ≠ 0)]
  rw [e, triangleStore_delta, hn1, h1]
  simp only [Vector2f.ext_iff2, Vector2f.add_x, Vector2f.add_y, Vector2f.mul_x, Vector2f.mul_y,
    Vector2f.lmul_x, Vector2f.lmul_y, Vector2f.vec_x, Vector2f.vec_y, Flt.num_mul_num,
    Flt.num_add_num, Flt.num.injEq]
  constructor <;> norm_num

/-- Claim C18: the second loop of `apply` corrects the vertices one after the other, in
place.  In a body of two or more different objects the call leaves vertex `i` at its start
position plus `0.01 * normal * delta`, where the normal of vertex 0 is computed from the
start positions of vertices `n - 1` and 1, the normal of vertex `i ≥ 1` from the corrected
position of vertex `i - 1` (the position the call leaves it at) and the start position of
vertex `i + 1`, and the normal of vertex `n - 1` from the corrected positions of vertices
`n - 2` and 0.  The simultaneous update uses the start positions of both neighbours
instead.  The two results differ: on the triangle `(0, 0)`, `(4, 0)`, `(0, 3)` of area 6
with desired area 3006 both move vertex 0 to `(3, 4)`, after which the loop of `apply`
moves vertex 1 to `(4 + 5 / √10, -15 / √10)`, while the simultaneous update moves it to
`(-1, 0)`. -/
theorem VerletSoftBody.apply_sequential :
    (∀ (vs : List Nat) (g : Store ℝ) (i : Nat),
      normal Real.sqrt vs g i
        = unitNormal Real.sqrt (g (vs.getD (prev_idx vs.length i) 0)).curr_position
            (g (vs.getD (next_idx vs.length i) 0)).curr_position)
    ∧ (∀ (b : VerletSoftBody ℝ) (h : Store ℝ), b.vertices.Nodup → 2 ≤ b.vertices.length →
      ∀ i, i < b.vertices.length →
        (apply Real.sqrt b h (b.vertices.getD i 0)).curr_position
          = (h (b.vertices.getD i 0)).curr_position
            + (((Flt.num (1 / 100) : Flt ℝ)
                * unitNormal Real.sqrt
                    (if i = 0 then
                        (h (b.vertices.getD (b.vertices.length - 1) 0)).curr_position
                      else (apply Real.sqrt b h (b.vertices.getD (i - 1) 0)).curr_position)
                    (if i = b.vertices.length - 1 then
                        (apply Real.sqrt b h (b.vertices.getD 0 0)).curr_position
                      else (h (b.vertices.getD (i + 1) 0)).curr_position) : Vector2f ℝ)
              * delta b h : Vector2f ℝ)
        ∧ (applySimultaneous Real.sqrt b h (b.vertices.getD i 0)).curr_position
          = (h (b.vertices.getD i 0)).curr_position
            + (((Flt.num (1 / 100) : Flt ℝ)
                * unitNormal Real.sqrt
                    (if i = 0 then
                        (h (b.vertices.getD (b.vertices.length - 1) 0)).curr_position
                      else (h (b.vertices.getD (i - 1) 0)).curr_position)
                    (if i = b.vertices.length - 1 then
                        (h (b.vertices.getD 0 0)).curr_position
                      else (h (b.vertices.getD (i + 1) 0)).curr_position) : Vector2f ℝ)
              * delta b h : Vector2f ℝ))
    ∧ current_area (triangleBody : VerletSoftBody ℝ).vertices (triangleStore : Store ℝ) = num 6
    ∧ (triangleBody : VerletSoftBody ℝ).desired_area = num 3006
    ∧ (apply Real.sqrt triangleBody (triangleStore : Store ℝ) 0).curr_position = vec 3 4
    ∧ (apply Real.sqrt triangleBody (triangleStore : Store ℝ) 1).curr_position
        = vec (4 + 5 / Real.sqrt 10) (-(15 / Real.sqrt 10))
    ∧ (applySimultaneous Real.sqrt triangleBody (triangleStore : Store ℝ) 1).curr_position
        = vec (-1) 0
    ∧ (apply Real.sqrt triangleBody (triangleStore : Store ℝ) 1).curr_position
        ≠ (applySimultaneous Real.sqrt triangleBody (triangleStore : Store ℝ) 1).curr_position
    ∧ apply Real.sqrt triangleBody (triangleStore : Store ℝ)
        ≠ applySimultaneous Real.sqrt triangleBody (triangleStore : Store ℝ) := by
  have hD : 0 < Real.sqrt 10 := Real.sqrt_pos.mpr (by norm_num)
  have hne : (apply Real.sqrt triangleBody (triangleStore : Store ℝ) 1).curr_position
      ≠ (applySimultaneous Real.sqrt triangleBody (triangleStore : Store ℝ) 1).curr_position := by
    rw [triangle_sequential.2, triangle_simultaneous]
    intro he
    have hy := ((Vector2f.vec_inj _ _ _ _).mp he).2
    rw [neg_eq_zero, div_eq_zero_iff] at hy
    rcases hy with hy | hy
    · norm_num at hy
    · exact hD.ne' hy
  refine ⟨fun vs g i => VerletSoftBody.normal_eq_unitNormal Real.sqrt vs g i, ?_, ?_, rfl,
    triangle_sequential.1, triangle_sequential.2, triangle_simultaneous, hne,
    fun he => hne (by rw [he])⟩
  · intro b h hnd hn i hi
    refine ⟨VerletSoftBody.apply_vertex Real.sqrt b h hnd hn i hi, ?_⟩
    rw [VerletSoftBody.applySimultaneous_vertex Real.sqrt b h hnd i hi]
    unfold prev_idx next_idx
    split_ifs <;> rfl
  · rw [VerletSoftBody.current_area_eval _ _ _ triangleStore_shoelace]
    norm_num [abs_of_pos]

/-- Claim C18 on the triangle: the call leaves vertex 1 at its start position plus
`0.01 * normal * delta`, the normal being computed from the position the call leaves
vertex 0 at and the start position of vertex 2. -/
theorem VerletSoftBody.apply_sequential_witness :
    (apply Real.sqrt triangleBody (triangleStore : Store ℝ) 1).curr_position
      = ((triangleStore : Store ℝ) 1).curr_position
        + (((Flt.num (1 / 100) : Flt ℝ)
            * unitNormal Real.sqrt
                (apply Real.sqrt triangleBody (triangleStore : Store ℝ) 0).curr_position
                ((triangleStore : Store ℝ) 2).curr_position : Vector2f ℝ)
          * (delta (triangleBody : VerletSoftBody ℝ) triangleStore : Flt ℝ) : Vector2f ℝ) :=
  (VerletSoftBody.apply_sequential.2.1 triangleBody triangleStore (by decide) (by decide) 1
    (by decide)).1

end Verlet
